import Mathlib

/-!
Verification development for the payments-risk-controls-simulator controls engine
(`src/controls_engine.py`).

The engine is embedded shallowly:
- a pandas cell is a `Value` (string, rational number standing for a float,
  boolean, `vNaN` for a float NaN cell, `vNA` for the pandas NA sentinel that
  `_safe_series` substitutes for an absent column);
- a DataFrame is a column list plus a list of rows (a row is an association
  list from column name to cell; a name missing from the row stands for an
  empty CSV cell, i.e. NaN);
- every fallible pandas/Python operation (`float(expected)` on a non-numeric
  value, `Series.isin` on a non-list, `Series.mean` over strings, the required
  column check) is modelled in `Except String`;
- machine floats are modelled as rationals; `round(x, 4)` is modelled as
  round-half-to-even on rationals.
-/

namespace RiskControls

/-- One pandas cell.  `vNaN` is a float NaN (an empty CSV cell inside a column
that exists); `vNA` is the `pd.NA` sentinel that `_safe_series` produces for a
column absent from the frame. -/
inductive Value where
  | vStr : String → Value
  | vNum : ℚ → Value
  | vBool : Bool → Value
  | vNaN : Value
  | vNA : Value
deriving DecidableEq

/-- A condition's expected value as parsed from YAML: scalar string, number,
boolean, or a list (for membership conditions). -/
inductive CondVal where
  | cStr : String → CondVal
  | cNum : ℚ → CondVal
  | cBool : Bool → CondVal
  | cList : List Value → CondVal
deriving DecidableEq

/-- A row of the transactions frame: column name to cell.  A name missing from
the association list is an empty cell of an existing column, i.e. NaN. -/
abbrev Row := List (String × Value)

/-- Cell of row `r` in a column known to exist in the frame. -/
def rowGet (r : Row) (c : String) : Value :=
  match r.lookup c with
  | some v => v
  | none => .vNaN

/-- A DataFrame: its schema (column list) and rows. -/
structure DF where
  cols : List String
  rows : List Row

/-- `_safe_series` applied at one row: `df[col]` when the column exists,
otherwise the `pd.NA` sentinel. -/
def safeGet (df : DF) (r : Row) (c : String) : Value :=
  if c ∈ df.cols then rowGet r c else .vNA

/-! ## Python string primitives used by the matcher -/

/-- `s.replace(pat, "")` on char lists: left-to-right scan removing every
non-overlapping occurrence of `pat` (Python `str.replace` with empty
replacement). -/
def repAll (pat : List Char) : List Char → List Char
  | [] => []
  | c :: rest =>
    if h : pat ≠ [] ∧ pat.isPrefixOf (c :: rest) then
      repAll pat (List.drop pat.length (c :: rest))
    else
      c :: repAll pat rest
termination_by s => s.length
decreasing_by
  · simp only [List.length_drop, List.length_cons]
    have hp : pat.length ≥ 1 := by
      cases pat with
      | nil => exact absurd rfl h.1
      | cons a l => simp
    omega
  · simp

/-- Python `key.replace(pat, "")`. -/
def pyReplace (s pat : String) : String := ⟨repAll pat.data s.data⟩

/-- ASCII lower-casing of one character (the relevant subset of Python
`str.lower()`). -/
def lowerChar (c : Char) : Char :=
  if 'A' ≤ c ∧ c ≤ 'Z' then Char.ofNat (c.toNat + 32) else c

/-- Python `s.lower()`. -/
def pyLower (s : String) : String := ⟨s.data.map lowerChar⟩

/-- Python `s.strip()`: drop whitespace from both ends. -/
def pyStrip (s : String) : String :=
  ⟨((s.data.dropWhile Char.isWhitespace).reverse.dropWhile
    Char.isWhitespace).reverse⟩

/-- Python `key.endswith(suf)`. -/
def pyEndsWith (s suf : String) : Bool := suf.data.isSuffixOf s.data

/-- Python `key[:-n]` (for `0 < n ≤ len(key)`): drop the last `n` characters. -/
def pyStripSuffix (s : String) (n : Nat) : String := ⟨s.data.take (s.data.length - n)⟩

/-- Parse a plain decimal literal (optional sign, digits, optional fractional
part), the common case of Python `float(str)` / `pd.to_numeric`.  Exotic forms
(exponents, inf/nan) are out of the claims' scope and parse as `none`. -/
def parseDigits : List Char → Option ℕ
  | [] => none
  | cs =>
    if cs.all Char.isDigit then
      some (cs.foldl (fun acc c => acc * 10 + (c.toNat - 48)) 0)
    else none

def parseDecimalCore (cs : List Char) : Option ℚ :=
  match cs.splitOn '.' with
  | [intPart] => (parseDigits intPart).map (fun n => (n : ℚ))
  | [intPart, fracPart] =>
    match intPart, fracPart with
    | [], [] => none
    | [], f =>
      (parseDigits f).map (fun n => (n : ℚ) / ((10 : ℚ) ^ f.length))
    | i, [] => (parseDigits i).map (fun n => (n : ℚ))
    | i, f =>
      match parseDigits i, parseDigits f with
      | some ni, some nf => some ((ni : ℚ) + (nf : ℚ) / ((10 : ℚ) ^ f.length))
      | _, _ => none
  | _ => none

def parseDecimal (s : String) : Option ℚ :=
  match (pyStrip s).data with
  | '-' :: rest => (parseDecimalCore rest).map (fun q => -q)
  | '+' :: rest => parseDecimalCore rest
  | cs => parseDecimalCore cs

/-! ## Cell-level operations of `build_mask_for_conditions` -/

/-- Python `str(cell)` as used by `astype(str)`.  `str(True) = "True"`,
`str(nan) = "nan"`, `str(pd.NA) = "<NA>"`.  For numbers we follow the float64
repr of integral values (`"5.0"`); non-integral rationals keep their fraction
form, an approximation that no claim depends on (their repr is never
`"true"`/`"false"` in either rendering). -/
def pyStrCell : Value → String
  | .vStr s => s
  | .vBool b => if b then "True" else "False"
  | .vNum q => if q.den = 1 then toString q.num ++ ".0" else toString q
  | .vNaN => "nan"
  | .vNA => "<NA>"

/-- One cell of `coerce_bool_series`: map the trimmed, lower-cased string form
to a boolean when it is `"true"`/`"false"`, otherwise keep the original cell.
(The `s.dtype == bool` fast path of the source returns the series unchanged;
on boolean cells the string mapping is also the identity, so the per-cell map
is extensionally the same.) -/
def coerceBoolCell (v : Value) : Value :=
  let t := pyLower (pyStrip (pyStrCell v))
  if t = "true" then .vBool true
  else if t = "false" then .vBool false
  else v

/-- Python `cell == expected` for a boolean expected value (`True == 1` holds
in Python; NA/NaN comparisons resolve to non-match after `fillna(False)`). -/
def pyEqBool (v : Value) (b : Bool) : Bool :=
  match v with
  | .vBool b2 => b2 = b
  | .vNum q => q = (if b then (1 : ℚ) else 0)
  | _ => false

/-- Python `cell == expected` for a numeric expected value (the plain
exact-match branch; `True == 1` again holds). -/
def pyEqNum (v : Value) (q : ℚ) : Bool :=
  match v with
  | .vNum q2 => q2 = q
  | .vBool b => (if b then (1 : ℚ) else 0) = q
  | _ => false

/-- One cell of `series.astype(str).str.lower() == expected.lower()`. -/
def pyEqStrLower (v : Value) (s : String) : Bool :=
  pyLower (pyStrCell v) = pyLower s

/-- One cell of `series.isin(values)`: structural membership; NaN/NA cells
never match. -/
def cellIsin (v : Value) (l : List Value) : Bool :=
  match v with
  | .vNaN => false
  | .vNA => false
  | v => v ∈ l

/-- `pd.to_numeric(-, errors="coerce")` on one cell: numbers stay, booleans
become 0/1, numeric strings parse, everything else becomes NaN (`none`). -/
def toNumericCell : Value → Option ℚ
  | .vNum q => some q
  | .vBool b => some (if b then 1 else 0)
  | .vStr s => parseDecimal s
  | .vNaN => none
  | .vNA => none

/-- Python `float(expected)` on a condition value; `none` means the call
raises (`float` of a list or of a non-numeric string). -/
def floatOfCondVal : CondVal → Option ℚ
  | .cNum q => some q
  | .cBool b => some (if b then 1 else 0)
  | .cStr s => parseDecimal s
  | .cList _ => none

/-- The `*_days` suffix table of the source, in its iteration order, each
paired with the comparison op it stands for. -/
def daySuffixes : List (String × String) :=
  [("_gt_days", "_gt"), ("_gte_days", "_gte"), ("_lt_days", "_lt"), ("_lte_days", "_lte")]

/-- The plain comparison suffixes, in the iteration order of the source. -/
def plainOps : List String := ["_gt", "_gte", "_lt", "_lte"]

/-- First day-style suffix the key ends with, with its op. -/
def matchDaySuffix (key : String) : Option (String × String) :=
  daySuffixes.find? (fun p => pyEndsWith key p.1)

/-- First plain comparison suffix the key ends with. -/
def matchPlainOp (key : String) : Option String :=
  plainOps.find? (fun op => pyEndsWith key op)

/-- The YAML field-name normalization of the source. -/
def normalizeField (f : String) : String :=
  let f1 := if f = "account_age" then "account_age_days" else f
  if f1 = "wallet_age" then "wallet_age_days" else f1

/-- Column consulted by the membership branch: `key.replace("_in", "")`,
which removes EVERY occurrence of `"_in"`, not only the trailing one. -/
def inFieldName (key : String) : String := pyReplace key "_in"

/-- Column consulted by the `*_days` branch: the suffix is stripped from the
end only (`key[:-len(suf)]`), then normalized. -/
def dayFieldName (key suf : String) : String :=
  normalizeField (pyStripSuffix key suf.length)

/-- Column consulted by the plain comparison branch: `key.replace(op, "")`
(again removing every occurrence), then normalized. -/
def cmpFieldName (key op : String) : String := normalizeField (pyReplace key op)

/-- Numeric comparison against the bound; a NaN (`none`) cell never matches. -/
def applyCmp (op : String) (x bound : ℚ) : Bool :=
  if op = "_gt" then bound < x
  else if op = "_gte" then bound ≤ x
  else if op = "_lt" then x < bound
  else if op = "_lte" then x ≤ bound
  else false

def optCmp (op : String) (ox : Option ℚ) (bound : ℚ) : Bool :=
  match ox with
  | some x => applyCmp op x bound
  | none => false

def isinErrMsg : String := "isin requires a list-like collection of values"
def floatErrMsg : String := "could not convert condition value to float"
def listCmpErrMsg : String := "cannot compare a series against a list value"
def meanErrMsg : String := "could not compute the mean of non-numeric labels"

/-- One condition of `build_mask_for_conditions`, evaluated at one row.
Errors are row-independent (they come from the expected value alone), so the
per-row result is an `Except` with the same error for every row.  The final
`mask.fillna(False)` of the source is folded in: every NA comparison outcome
is already rendered as `false`. -/
def evalCondition (df : DF) (key : String) (expected : CondVal) (r : Row) :
    Except String Bool :=
  if pyEndsWith key "_in" then
    match expected with
    | .cList l => .ok (cellIsin (safeGet df r (inFieldName key)) l)
    | _ => .error isinErrMsg
  else
    match matchDaySuffix key with
    | some (suf, op) =>
      match floatOfCondVal expected with
      | some bound =>
          .ok (optCmp op (toNumericCell (safeGet df r (dayFieldName key suf))) bound)
      | none => .error floatErrMsg
    | none =>
      match matchPlainOp key with
      | some op =>
        match floatOfCondVal expected with
        | some bound =>
            .ok (optCmp op (toNumericCell (safeGet df r (cmpFieldName key op))) bound)
        | none => .error floatErrMsg
      | none =>
        match expected with
        | .cBool b => .ok (pyEqBool (coerceBoolCell (safeGet df r key)) b)
        | .cStr s => .ok (pyEqStrLower (safeGet df r key) s)
        | .cNum q => .ok (pyEqNum (safeGet df r key) q)
        | .cList _ => .error listCmpErrMsg

/-- The single column `evalCondition` consults for a given key. -/
def condField (key : String) : String :=
  if pyEndsWith key "_in" then inFieldName key
  else
    match matchDaySuffix key with
    | some (suf, _) => dayFieldName key suf
    | none =>
      match matchPlainOp key with
      | some op => cmpFieldName key op
      | none => key

/-- Well-typedness of one condition for its suffix kind: a list for `_in`, a
float-convertible value for the comparison branches, a non-list scalar for
exact match — and, for string equality, an expected value that does not
lower-case to `"<na>"` (the string form of the NA sentinel). -/
def condSafe (key : String) (v : CondVal) : Bool :=
  if pyEndsWith key "_in" then
    (match v with
     | .cList _ => true
     | _ => false)
  else
    match matchDaySuffix key with
    | some _ => (floatOfCondVal v).isSome
    | none =>
      match matchPlainOp key with
      | some _ => (floatOfCondVal v).isSome
      | none =>
        match v with
        | .cList _ => false
        | .cStr s => decide (pyLower s ≠ "<na>")
        | _ => true

/-- All conditions of one control at one row, ANDed in declaration order
(`mask &= ...`); the first raising condition aborts. -/
def rowMatches (df : DF) (conds : List (String × CondVal)) (r : Row) :
    Except String Bool :=
  match conds with
  | [] => .ok true
  | (k, v) :: rest => do
    let b ← evalCondition df k v r
    let brest ← rowMatches df rest r
    return (b && brest)

/-! ## Data model of the engine -/

/-- A risk control loaded from YAML (`Control` dataclass of the source). -/
structure Control where
  control_id : String
  rail : String
  severity : String
  action : String
  description : String
  conditions : List (String × CondVal)
deriving DecidableEq

/-- One row of the long-format hits table. -/
structure Hit where
  tx_id : Value
  rail : Value
  control_id : String
  severity : String
  action : String
  description : String
deriving DecidableEq

/-- One row of the decisions table. -/
structure Decision where
  tx_id : Value
  rail : Value
  timestamp : Value
  user_id : Value
  amount : Value
  is_fraud_pattern : Value
  final_action : String
  triggered_controls : String
  triggered_actions : String
deriving DecidableEq

/-- One row of the metrics table.  `precision_proxy = none` models the NaN a
mean over zero non-null labels produces. -/
structure Metric where
  control_id : String
  hits : Nat
  hit_rate : ℚ
  precision_proxy : Option ℚ
deriving DecidableEq

/-! ## Decision logic -/

/-- `ACTION_PRIORITY.get(a, 0)`. -/
def ACTION_PRIORITY (a : String) : Nat :=
  if a = "ALLOW" then 0
  else if a = "REVIEW" then 1
  else if a = "BLOCK" then 2
  else 0

/-- One step of Python `max(xs, key=f)`: a later element replaces the
accumulator only on a strictly greater key. -/
def maxStep (f : String → Nat) (acc y : String) : String :=
  if f acc < f y then y else acc

/-- Python `max(xs, key=f)`: the first element attaining the maximal key. -/
def pyMax (f : String → Nat) : List String → String
  | [] => ""
  | x :: xs => xs.foldl (maxStep f) x

/-- `resolve_final_action` of the source. -/
def resolve_final_action (actions : List String) : String :=
  if actions = [] then "ALLOW" else pyMax ACTION_PRIORITY actions

/-! ## Rule evaluator -/

/-- `tx[tx["rail"] == control.rail]`: rows whose rail cell equals the string;
the schema is inherited. -/
def railFilter (tx : DF) (rail : String) : DF :=
  { cols := tx.cols,
    rows := tx.rows.filter (fun r => rowGet r "rail" = Value.vStr rail) }

/-- Rows of `rs` kept by the control's mask, in order. -/
def maskRows (df : DF) (conds : List (String × CondVal)) :
    List Row → Except String (List Row)
  | [] => .ok []
  | r :: rs => do
    let b ← rowMatches df conds r
    let rest ← maskRows df conds rs
    return (if b then r :: rest else rest)

/-- One control's contribution to the hits table: restrict to its rail, skip
when empty, else keep matching rows and record one hit per row. -/
def controlHits (tx : DF) (c : Control) : Except String (List Hit) := do
  let railDf := railFilter tx c.rail
  if railDf.rows.isEmpty then
    return []
  else
    let hitRows ← maskRows railDf c.conditions railDf.rows
    return hitRows.map (fun r =>
      { tx_id := rowGet r "tx_id", rail := rowGet r "rail",
        control_id := c.control_id, severity := c.severity,
        action := c.action, description := c.description })

/-- The flat hit list over all controls, in control order. -/
def allHits (tx : DF) : List Control → Except String (List Hit)
  | [] => .ok []
  | c :: cs => do
    let h ← controlHits tx c
    let rest ← allHits tx cs
    return (h ++ rest)

/-! ## Decision resolver -/

/-- Pandas merge/groupby key equality: NaN and NA keys never match anything
(pandas drops NaN groupby keys and never joins on NaN). -/
def mergeKeyEq (a b : Value) : Bool :=
  match a, b with
  | .vNaN, _ => false
  | _, .vNaN => false
  | .vNA, _ => false
  | _, .vNA => false
  | a, b => a = b

/-- `", ".join(sorted(set(s)))`. -/
def sortedSetJoin (l : List String) : String :=
  String.intercalate ", " (l.dedup.insertionSort (fun a b => a ≤ b))

/-- The decision row for one transaction row.  `ord` is the unspecified
enumeration order in which Python's `list(set(...))` presents the deduplicated
action set to `resolve_final_action`; faithful instantiations satisfy
`(ord l).Perm l.dedup`.  An empty group models both the global no-hits branch
and a left-merge miss followed by `fillna` (the two coincide row-wise). -/
def decisionFor (hits : List Hit) (ord : List String → List String) (r : Row) :
    Decision :=
  let key := rowGet r "tx_id"
  let group := hits.filter (fun h => mergeKeyEq h.tx_id key)
  { tx_id := key,
    rail := rowGet r "rail",
    timestamp := rowGet r "timestamp",
    user_id := rowGet r "user_id",
    amount := rowGet r "amount",
    is_fraud_pattern := rowGet r "is_fraud_pattern",
    final_action :=
      if group.isEmpty then "ALLOW"
      else resolve_final_action (ord (group.map (fun h => h.action))),
    triggered_controls :=
      if group.isEmpty then "" else sortedSetJoin (group.map (fun h => h.control_id)),
    triggered_actions :=
      if group.isEmpty then "" else sortedSetJoin (group.map (fun h => h.action)) }

/-! ## Monitoring aggregator -/

/-- `hits_df.merge(tx[["tx_id","is_fraud_pattern","amount","rail"]],
on=["tx_id","rail"], how="left")`, restricted to the hit and the label that
the metrics code reads.  A hit with no matching transaction row is kept once
with a NaN label (left join). -/
def joinLabel (tx : DF) (h : Hit) : List (Hit × Value) :=
  let ms := tx.rows.filter (fun r =>
    mergeKeyEq (rowGet r "tx_id") h.tx_id && mergeKeyEq (rowGet r "rail") h.rail)
  if ms.isEmpty then [(h, Value.vNaN)]
  else ms.map (fun r => (h, rowGet r "is_fraud_pattern"))

/-- `Series.mean()` with `skipna`: booleans count as 0/1, NaN/NA cells are
skipped, a string cell raises, a mean over nothing is NaN (`none`). -/
def meanNumeric (vs : List Value) : Except String (Option ℚ) :=
  if vs.any (fun v => match v with | .vStr _ => true | _ => false) then
    .error meanErrMsg
  else
    let nums := vs.filterMap (fun v =>
      match v with
      | .vBool b => some (if b then (1 : ℚ) else 0)
      | .vNum q => some q
      | _ => none)
    if nums.isEmpty then .ok none
    else .ok (some (nums.sum / (nums.length : ℚ)))

/-- Round-half-to-even to an integer (Python `round` on ties). -/
def roundHalfEven (q : ℚ) : ℤ :=
  let f := ⌊q⌋
  let r := q - (f : ℚ)
  if r < 1 / 2 then f
  else if 1 / 2 < r then f + 1
  else if f % 2 = 0 then f else f + 1

/-- Python `round(x, 4)` on the rational model of a float. -/
def round4 (q : ℚ) : ℚ := ((roundHalfEven (q * 10000) : ℤ) : ℚ) / 10000

/-- The metrics row of one control id. -/
def metricFor (total : Nat) (labeled : List (Hit × Value)) (cid : String) :
    Except String Metric := do
  let g := labeled.filter (fun p => p.1.control_id = cid)
  let m ← meanNumeric (g.map (fun p => p.2))
  return { control_id := cid, hits := g.length,
           hit_rate := round4 ((g.length : ℚ) / (total : ℚ)),
           precision_proxy := m.map round4 }

def metricRows (total : Nat) (labeled : List (Hit × Value)) :
    List String → Except String (List Metric)
  | [] => .ok []
  | cid :: cs => do
    let m ← metricFor total labeled cid
    let rest ← metricRows total labeled cs
    return (m :: rest)

/-- The metrics table: empty when there are no hits; otherwise group the
label-joined hits by control id (pandas groupby iterates keys sorted), emit
one row per group, and sort by descending hit count. -/
def metricsFor (tx : DF) (hits : List Hit) : Except String (List Metric) :=
  if hits.isEmpty then .ok []
  else do
    let labeled := hits.flatMap (joinLabel tx)
    let cids := ((labeled.map (fun p => p.1.control_id)).dedup).insertionSort
      (fun a b => a ≤ b)
    let rows ← metricRows tx.rows.length labeled cids
    return rows.insertionSort (fun a b => b.hits ≤ a.hits)

/-! ## evaluate_controls -/

def requiredCols : List String :=
  ["tx_id", "rail", "timestamp", "user_id", "amount", "is_fraud_pattern"]

def missingColMsg (c : String) : String :=
  "Missing required column " ++ c ++ " in combined_transactions.csv"

/-- The full engine pass: required-column check first (fail fast, naming the
first missing column), then hits, decisions, metrics. -/
def evaluate_controls (ord : List String → List String) (tx : DF)
    (controls : List Control) :
    Except String (List Decision × List Hit × List Metric) :=
  match requiredCols.find? (fun c => !(tx.cols.contains c)) with
  | some c => .error (missingColMsg c)
  | none => do
    let hits ← allHits tx controls
    let decisions := tx.rows.map (decisionFor hits ord)
    let metrics ← metricsFor tx hits
    return (decisions, hits, metrics)

/-! ## Concrete fixtures for the scenario claims -/

/-- The deterministic instantiation of the set-enumeration order. -/
def dedupOrd (l : List String) : List String := l.dedup

/-- A one-transaction batch with all six required columns and no `ghost`
column. -/
def ghostRow : Row :=
  [("tx_id", .vStr "T1"), ("rail", .vStr "ACH"),
   ("timestamp", .vStr "2024-01-01T00:00:00"), ("user_id", .vStr "U1"),
   ("amount", .vNum 100), ("is_fraud_pattern", .vBool false)]

def ghostDf : DF :=
  { cols := ["tx_id", "rail", "timestamp", "user_id", "amount",
             "is_fraud_pattern"],
    rows := [ghostRow] }

/-- A control whose only condition references the absent `ghost` column with
the expected string `"<NA>"`. -/
def ghostControl : Control :=
  { control_id := "GHOST", rail := "ACH", severity := "LOW",
    action := "REVIEW", description := "", conditions := [("ghost", .cStr "<NA>")] }

/-- The §8 scenario batch: one ACH transaction with instant funding, amount
6000 and account age 10 days. -/
def scenarioRow : Row :=
  [("tx_id", .vStr "T1"), ("rail", .vStr "ACH"),
   ("timestamp", .vStr "2024-01-01T00:00:00"), ("user_id", .vStr "U1"),
   ("amount", .vNum 6000), ("is_fraud_pattern", .vBool false),
   ("funding_speed", .vStr "instant"), ("account_age_days", .vNum 10)]

def scenarioDf : DF :=
  { cols := ["tx_id", "rail", "timestamp", "user_id", "amount",
             "is_fraud_pattern", "funding_speed", "account_age_days"],
    rows := [scenarioRow] }

/-- The §8 scenario control. -/
def scenarioControl : Control :=
  { control_id := "ACH_FAST_FUNDING", rail := "ACH", severity := "HIGH",
    action := "REVIEW", description := "fast funding on a young account",
    conditions := [("funding_speed", .cStr "instant"),
                   ("amount_gt", .cNum 5000),
                   ("account_age_lt_days", .cNum 30)] }

/-- A two-transaction, two-control batch exercising BLOCK/REVIEW resolution
and the metrics aggregation. -/
def wRow1 : Row :=
  [("tx_id", .vStr "T1"), ("rail", .vStr "ACH"),
   ("timestamp", .vStr "2024-01-01T00:00:00"), ("user_id", .vStr "U1"),
   ("amount", .vNum 8000), ("is_fraud_pattern", .vBool true)]

def wRow2 : Row :=
  [("tx_id", .vStr "T2"), ("rail", .vStr "CARD"),
   ("timestamp", .vStr "2024-01-02T00:00:00"), ("user_id", .vStr "U2"),
   ("amount", .vNum 100), ("is_fraud_pattern", .vBool false)]

def wDf : DF :=
  { cols := ["tx_id", "rail", "timestamp", "user_id", "amount",
             "is_fraud_pattern"],
    rows := [wRow1, wRow2] }

def wControlA : Control :=
  { control_id := "ACH_LARGE", rail := "ACH", severity := "MEDIUM",
    action := "REVIEW", description := "large ACH",
    conditions := [("amount_gt", .cNum 5000)] }

def wControlB : Control :=
  { control_id := "ACH_HUGE", rail := "ACH", severity := "HIGH",
    action := "BLOCK", description := "huge ACH",
    conditions := [("amount_gt", .cNum 7000)] }

def wControls : List Control := [wControlA, wControlB]

/-- The outputs the engine computes on the batch above. -/
def wDecision1 : Decision :=
  { tx_id := .vStr "T1", rail := .vStr "ACH",
    timestamp := .vStr "2024-01-01T00:00:00", user_id := .vStr "U1",
    amount := .vNum 8000, is_fraud_pattern := .vBool true,
    final_action := "BLOCK", triggered_controls := "ACH_HUGE, ACH_LARGE",
    triggered_actions := "BLOCK, REVIEW" }

def wDecision2 : Decision :=
  { tx_id := .vStr "T2", rail := .vStr "CARD",
    timestamp := .vStr "2024-01-02T00:00:00", user_id := .vStr "U2",
    amount := .vNum 100, is_fraud_pattern := .vBool false,
    final_action := "ALLOW", triggered_controls := "",
    triggered_actions := "" }

def wHit1 : Hit :=
  { tx_id := .vStr "T1", rail := .vStr "ACH", control_id := "ACH_LARGE",
    severity := "MEDIUM", action := "REVIEW", description := "large ACH" }

def wHit2 : Hit :=
  { tx_id := .vStr "T1", rail := .vStr "ACH", control_id := "ACH_HUGE",
    severity := "HIGH", action := "BLOCK", description := "huge ACH" }

def wMetric1 : Metric :=
  { control_id := "ACH_HUGE", hits := 1, hit_rate := 1 / 2,
    precision_proxy := some 1 }

def wMetric2 : Metric :=
  { control_id := "ACH_LARGE", hits := 1, hit_rate := 1 / 2,
    precision_proxy := some 1 }

def wDecisions : List Decision := [wDecision1, wDecision2]
def wHits : List Hit := [wHit1, wHit2]
def wMetrics : List Metric := [wMetric1, wMetric2]

/-- A second faithful set-enumeration order (reversed). -/
def revOrd (l : List String) : List String := l.dedup.reverse

/-- A frame missing five of the six required columns. -/
def c5Df : DF := { cols := ["tx_id"], rows := [] }

/-! ## Lemmas: the decision resolver -/

/-- The action vocabulary of the data model. -/
def validActions : List String := ["ALLOW", "REVIEW", "BLOCK"]

lemma maxStep_mem (f : String → Nat) (acc y : String) :
    maxStep f acc y = acc ∨ maxStep f acc y = y := by
  unfold maxStep
  split <;> simp

lemma foldl_maxStep_mem (f : String → Nat) :
    ∀ (xs : List String) (acc : String), xs.foldl (maxStep f) acc ∈ acc :: xs := by
  intro xs
  induction xs with
  | nil => intro acc; simp
  | cons y ys ih =>
    intro acc
    rw [List.foldl_cons]
    rcases List.mem_cons.mp (ih (maxStep f acc y)) with h2 | h2
    · rcases maxStep_mem f acc y with h1 | h1
      · rw [h2, h1]; simp
      · rw [h2, h1]; simp
    · exact List.mem_cons_of_mem _ (List.mem_cons_of_mem _ h2)

lemma foldl_maxStep_le (f : String → Nat) :
    ∀ (xs : List String) (acc a : String), a ∈ acc :: xs →
      f a ≤ f (xs.foldl (maxStep f) acc) := by
  intro xs
  induction xs with
  | nil =>
    intro acc a ha
    rw [List.foldl_nil]
    rcases List.mem_cons.mp ha with rfl | h
    · exact le_refl _
    · exact absurd h (List.not_mem_nil a)
  | cons y ys ih =>
    intro acc a ha
    rw [List.foldl_cons]
    have hstep1 : f acc ≤ f (maxStep f acc y) := by unfold maxStep; split <;> omega
    have hstep2 : f y ≤ f (maxStep f acc y) := by unfold maxStep; split <;> omega
    have hacc : f (maxStep f acc y) ≤ f (ys.foldl (maxStep f) (maxStep f acc y)) :=
      ih (maxStep f acc y) (maxStep f acc y) (by simp)
    rcases List.mem_cons.mp ha with rfl | ha2
    · exact le_trans hstep1 hacc
    · rcases List.mem_cons.mp ha2 with rfl | ha3
      · exact le_trans hstep2 hacc
      · exact ih (maxStep f acc y) a (List.mem_cons_of_mem _ ha3)

/-- `resolve_final_action` on a list of well-formed actions is the
highest-priority action present: BLOCK beats REVIEW beats ALLOW. -/
lemma resolve_final_action_char (l : List String)
    (hval : ∀ a ∈ l, a ∈ validActions) :
    resolve_final_action l =
      if "BLOCK" ∈ l then "BLOCK"
      else if "REVIEW" ∈ l then "REVIEW"
      else "ALLOW" := by
  cases l with
  | nil => simp [resolve_final_action]
  | cons x xs =>
    have hne : (x :: xs : List String) ≠ [] := by simp
    rw [resolve_final_action, if_neg hne]
    have hmem : pyMax ACTION_PRIORITY (x :: xs) ∈ x :: xs :=
      foldl_maxStep_mem ACTION_PRIORITY xs x
    have hvr : pyMax ACTION_PRIORITY (x :: xs) ∈ validActions := hval _ hmem
    by_cases hB : "BLOCK" ∈ x :: xs
    · have hle : ACTION_PRIORITY "BLOCK" ≤
          ACTION_PRIORITY (pyMax ACTION_PRIORITY (x :: xs)) :=
        foldl_maxStep_le ACTION_PRIORITY xs x "BLOCK" hB
      have h2 : ACTION_PRIORITY "BLOCK" = 2 := by decide
      rw [if_pos hB]
      simp only [validActions, List.mem_cons, List.mem_singleton] at hvr
      rcases hvr with h | h | h | h
      · rw [h] at hle; rw [h2] at hle
        simp [ACTION_PRIORITY] at hle
      · rw [h] at hle; rw [h2] at hle
        simp [ACTION_PRIORITY] at hle
      · exact h
      · exact absurd h (by simp)
    · by_cases hR : "REVIEW" ∈ x :: xs
      · have hle : ACTION_PRIORITY "REVIEW" ≤
            ACTION_PRIORITY (pyMax ACTION_PRIORITY (x :: xs)) :=
          foldl_maxStep_le ACTION_PRIORITY xs x "REVIEW" hR
        rw [if_neg hB, if_pos hR]
        simp only [validActions, List.mem_cons, List.mem_singleton] at hvr
        rcases hvr with h | h | h | h
        · rw [h] at hle
          simp [ACTION_PRIORITY] at hle
        · exact h
        · exact absurd (h ▸ hmem) hB
        · exact absurd h (by simp)
      · rw [if_neg hB, if_neg hR]
        simp only [validActions, List.mem_cons, List.mem_singleton] at hvr
        rcases hvr with h | h | h | h
        · exact h
        · exact absurd (h ▸ hmem) hR
        · exact absurd (h ▸ hmem) hB
        · exact absurd h (by simp)

/-! ## Lemmas: merge keys, masks and hits -/

lemma exceptBind_ok {ε α β : Type} (a : α) (f : α → Except ε β) :
    (Except.ok a >>= f) = f a := rfl

lemma exceptBind_error {ε α β : Type} (e : ε) (f : α → Except ε β) :
    ((Except.error e : Except ε α) >>= f) = Except.error e := rfl

lemma exceptPure_def {ε α : Type} (a : α) :
    (pure a : Except ε α) = Except.ok a := rfl

lemma mergeKeyEq_eq {a b : Value} (h : mergeKeyEq a b = true) : a = b := by
  unfold mergeKeyEq at h
  cases a <;> cases b <;> simp_all

lemma mergeKeyEq_vStr (a : Value) (s : String) :
    mergeKeyEq a (Value.vStr s) = true ↔ a = Value.vStr s := by
  constructor
  · exact mergeKeyEq_eq
  · intro h
    subst h
    simp [mergeKeyEq]

lemma maskRows_sublist (df : DF) (conds : List (String × CondVal)) :
    ∀ (rs out : List Row), maskRows df conds rs = .ok out → out.Sublist rs := by
  intro rs
  induction rs with
  | nil =>
    intro out h
    simp only [maskRows] at h
    cases h
    exact List.Sublist.refl _
  | cons r rest ih =>
    intro out h
    simp only [maskRows] at h
    cases hb : rowMatches df conds r with
    | error e => rw [hb] at h; cases h
    | ok b =>
      rw [hb] at h
      cases hrest : maskRows df conds rest with
      | error e => rw [hrest] at h; cases h
      | ok out2 =>
        rw [hrest] at h
        simp only [exceptBind_ok, exceptPure_def, Except.ok.injEq] at h
        subst h
        cases b with
        | true => simpa using (ih out2 hrest).cons₂ r
        | false => simpa using (ih out2 hrest).cons r

lemma maskRows_ok_mem (df : DF) (conds : List (String × CondVal)) :
    ∀ (rs out : List Row), maskRows df conds rs = .ok out →
      ∀ r ∈ out, rowMatches df conds r = .ok true := by
  intro rs
  induction rs with
  | nil =>
    intro out h r hr
    simp only [maskRows] at h
    cases h
    cases hr
  | cons r0 rest ih =>
    intro out h r hr
    simp only [maskRows] at h
    cases hb : rowMatches df conds r0 with
    | error e => rw [hb] at h; cases h
    | ok b =>
      rw [hb] at h
      cases hrest : maskRows df conds rest with
      | error e => rw [hrest] at h; cases h
      | ok out2 =>
        rw [hrest] at h
        simp only [exceptBind_ok, exceptPure_def, Except.ok.injEq] at h
        subst h
        cases b with
        | true =>
          rcases List.mem_cons.mp (by simpa using hr) with rfl | h2
          · exact hb
          · exact ih out2 hrest r h2
        | false => exact ih out2 hrest r (by simpa using hr)

lemma maskRows_all_false (df : DF) (conds : List (String × CondVal)) :
    ∀ (rs : List Row), (∀ r ∈ rs, rowMatches df conds r = .ok false) →
      maskRows df conds rs = .ok [] := by
  intro rs
  induction rs with
  | nil => intro _; rfl
  | cons r rest ih =>
    intro h
    simp only [maskRows]
    rw [h r (by simp), ih (fun r2 h2 => h r2 (List.mem_cons_of_mem _ h2))]
    rfl

/-- Every field of a hit produced by one control, and its source row. -/
lemma controlHits_shape (tx : DF) (c : Control) (hs : List Hit)
    (h : controlHits tx c = .ok hs) :
    ∀ x ∈ hs, x.control_id = c.control_id ∧ x.severity = c.severity ∧
      x.action = c.action ∧ x.description = c.description ∧
      ∃ r ∈ tx.rows, rowGet r "rail" = Value.vStr c.rail ∧
        x.tx_id = rowGet r "tx_id" ∧ x.rail = rowGet r "rail" := by
  intro x hx
  unfold controlHits at h
  by_cases hemp : (railFilter tx c.rail).rows.isEmpty
  · rw [if_pos hemp] at h
    simp only [exceptPure_def, Except.ok.injEq] at h
    subst h
    cases hx
  · rw [if_neg hemp] at h
    cases hmask : maskRows (railFilter tx c.rail) c.conditions (railFilter tx c.rail).rows with
    | error e => rw [hmask] at h; cases h
    | ok hitRows =>
      rw [hmask] at h
      simp only [exceptBind_ok, exceptPure_def, Except.ok.injEq] at h
      subst h
      rcases List.mem_map.mp hx with ⟨r, hr, hxr⟩
      have hrin : r ∈ (railFilter tx c.rail).rows :=
        (maskRows_sublist _ _ _ _ hmask).subset hr
      have hrtx : r ∈ tx.rows := List.mem_of_mem_filter hrin
      have hrail : rowGet r "rail" = Value.vStr c.rail := by
        have := List.of_mem_filter hrin
        simpa using this
      subst hxr
      exact ⟨rfl, rfl, rfl, rfl, r, hrtx, hrail, rfl, rfl⟩

lemma controlHits_length (tx : DF) (c : Control) (hs : List Hit)
    (h : controlHits tx c = .ok hs) : hs.length ≤ tx.rows.length := by
  unfold controlHits at h
  by_cases hemp : (railFilter tx c.rail).rows.isEmpty
  · rw [if_pos hemp] at h
    simp only [exceptPure_def, Except.ok.injEq] at h
    subst h
    simp
  · rw [if_neg hemp] at h
    cases hmask : maskRows (railFilter tx c.rail) c.conditions (railFilter tx c.rail).rows with
    | error e => rw [hmask] at h; cases h
    | ok hitRows =>
      rw [hmask] at h
      simp only [exceptBind_ok, exceptPure_def, Except.ok.injEq] at h
      subst h
      calc (hitRows.map _).length = hitRows.length := List.length_map _ _
        _ ≤ (railFilter tx c.rail).rows.length :=
            (maskRows_sublist _ _ _ _ hmask).length_le
        _ ≤ tx.rows.length := List.length_filter_le _ _

lemma controlHits_empty_rail (tx : DF) (c : Control)
    (h : (railFilter tx c.rail).rows = []) : controlHits tx c = .ok [] := by
  unfold controlHits
  rw [if_pos (by simp [h])]
  rfl

/-- Decomposition of the hit list over a cons of controls. -/
lemma allHits_cons (tx : DF) (c : Control) (cs : List Control) (hs : List Hit)
    (h : allHits tx (c :: cs) = .ok hs) :
    ∃ h1 h2, controlHits tx c = .ok h1 ∧ allHits tx cs = .ok h2 ∧ hs = h1 ++ h2 := by
  simp only [allHits] at h
  cases h1e : controlHits tx c with
  | error e => rw [h1e] at h; cases h
  | ok h1 =>
    rw [h1e] at h
    cases h2e : allHits tx cs with
    | error e => rw [h2e] at h; cases h
    | ok h2 =>
      rw [h2e] at h
      simp only [exceptBind_ok, exceptPure_def, Except.ok.injEq] at h
      exact ⟨h1, h2, rfl, rfl, h.symm⟩

/-- Every hit of the full pass is attributable to a control of the list and to
a source transaction row of the control's rail. -/
lemma allHits_provenance (tx : DF) :
    ∀ (controls : List Control) (hs : List Hit), allHits tx controls = .ok hs →
      ∀ x ∈ hs, ∃ c ∈ controls, x.control_id = c.control_id ∧
        x.action = c.action ∧
        ∃ r ∈ tx.rows, rowGet r "rail" = Value.vStr c.rail ∧
          x.tx_id = rowGet r "tx_id" ∧ x.rail = rowGet r "rail" := by
  intro controls
  induction controls with
  | nil =>
    intro hs h x hx
    simp only [allHits] at h
    cases h
    cases hx
  | cons c cs ih =>
    intro hs h x hx
    rcases allHits_cons tx c cs hs h with ⟨h1, h2, hc, hcs, rfl⟩
    rcases List.mem_append.mp hx with hx1 | hx2
    · rcases controlHits_shape tx c h1 hc x hx1 with ⟨hcid, _, hact, _, hrow⟩
      exact ⟨c, by simp, hcid, hact, hrow⟩
    · rcases ih h2 hcs x hx2 with ⟨c2, hc2, rest⟩
      exact ⟨c2, List.mem_cons_of_mem _ hc2, rest⟩

/-! ## Lemmas: unpacking a successful engine pass -/

lemma evaluate_controls_ok (ord : List String → List String) (tx : DF)
    (controls : List Control) (ds : List Decision) (hs : List Hit)
    (ms : List Metric)
    (h : evaluate_controls ord tx controls = .ok (ds, hs, ms)) :
    requiredCols.find? (fun c => !(tx.cols.contains c)) = none ∧
    allHits tx controls = .ok hs ∧
    ds = tx.rows.map (decisionFor hs ord) ∧
    metricsFor tx hs = .ok ms := by
  unfold evaluate_controls at h
  cases hfind : requiredCols.find? (fun c => !(tx.cols.contains c)) with
  | some c => rw [hfind] at h; cases h
  | none =>
    rw [hfind] at h
    cases hhits : allHits tx controls with
    | error e => rw [hhits] at h; cases h
    | ok hs0 =>
      rw [hhits] at h
      cases hmet : metricsFor tx hs0 with
      | error e =>
        rw [exceptBind_ok, hmet, exceptBind_error] at h
        cases h
      | ok ms0 =>
        rw [exceptBind_ok, hmet, exceptBind_ok, exceptPure_def] at h
        simp only [Except.ok.injEq, Prod.mk.injEq] at h
        obtain ⟨h1, h2, h3⟩ := h
        subst h2
        subst h3
        exact ⟨rfl, rfl, h1.symm, hmet⟩

lemma mem_filter_merge (hs : List Hit) (s : String) (x : Hit) :
    x ∈ hs.filter (fun h => mergeKeyEq h.tx_id (Value.vStr s)) ↔
      x ∈ hs ∧ x.tx_id = Value.vStr s := by
  rw [List.mem_filter, mergeKeyEq_vStr]

/-- The decision built for one row, with a string transaction id: its final
action is fully determined by the actions of the hits carrying that id. -/
lemma decisionFor_final_char (hs : List Hit) (ord : List String → List String)
    (hord : ∀ l, (ord l).Perm l.dedup) (r : Row) (s : String)
    (hkey : rowGet r "tx_id" = Value.vStr s)
    (hval : ∀ h ∈ hs, h.tx_id = Value.vStr s → h.action ∈ validActions) :
    (decisionFor hs ord r).final_action =
      if ∃ h ∈ hs, h.tx_id = Value.vStr s ∧ h.action = "BLOCK" then "BLOCK"
      else if ∃ h ∈ hs, h.tx_id = Value.vStr s ∧ h.action = "REVIEW" then "REVIEW"
      else "ALLOW" := by
  have hfa : (decisionFor hs ord r).final_action =
      (if (hs.filter (fun h => mergeKeyEq h.tx_id (rowGet r "tx_id"))).isEmpty
       then "ALLOW"
       else resolve_final_action
         (ord ((hs.filter (fun h => mergeKeyEq h.tx_id (rowGet r "tx_id"))).map
           (fun h => h.action)))) := rfl
  rw [hfa, hkey]
  set grp := hs.filter (fun h => mergeKeyEq h.tx_id (Value.vStr s)) with hgrp
  by_cases hemp : grp.isEmpty
  · have hnil : grp = [] := List.isEmpty_iff.mp hemp
    have hnone : ∀ P : Hit → Prop, ¬ ∃ h ∈ hs, h.tx_id = Value.vStr s ∧ P h := by
      intro P hex
      rcases hex with ⟨h, hmem, hid, _⟩
      have : h ∈ grp := (mem_filter_merge hs s h).mpr ⟨hmem, hid⟩
      rw [hnil] at this
      cases this
    rw [if_pos hemp, if_neg (hnone _), if_neg (hnone _)]
  · rw [if_neg hemp]
    set acts := grp.map (fun h => h.action) with hacts
    have hperm := hord acts
    have hmemiff : ∀ a, a ∈ ord acts ↔ a ∈ acts := by
      intro a
      rw [hperm.mem_iff, List.mem_dedup]
    have hvalall : ∀ a ∈ ord acts, a ∈ validActions := by
      intro a ha
      rcases List.mem_map.mp ((hmemiff a).mp ha) with ⟨h, hh, rfl⟩
      rcases (mem_filter_merge hs s h).mp (hgrp ▸ hh) with ⟨hmem, hid⟩
      exact hval h hmem hid
    rw [resolve_final_action_char (ord acts) hvalall]
    have hiff : ∀ a : String, (a ∈ ord acts) ↔
        ∃ h ∈ hs, h.tx_id = Value.vStr s ∧ h.action = a := by
      intro a
      rw [hmemiff]
      constructor
      · intro ha
        rcases List.mem_map.mp ha with ⟨h, hh, rfl⟩
        rcases (mem_filter_merge hs s h).mp (hgrp ▸ hh) with ⟨hmem, hid⟩
        exact ⟨h, hmem, hid, rfl⟩
      · intro hex
        rcases hex with ⟨h, hmem, hid, hact⟩
        exact List.mem_map.mpr ⟨h, (mem_filter_merge hs s h).mpr ⟨hmem, hid⟩, hact⟩
    by_cases hB : ∃ h ∈ hs, h.tx_id = Value.vStr s ∧ h.action = "BLOCK"
    · rw [if_pos ((hiff "BLOCK").mpr hB), if_pos hB]
    · rw [if_neg (fun hc => hB ((hiff "BLOCK").mp hc)), if_neg hB]
      by_cases hR : ∃ h ∈ hs, h.tx_id = Value.vStr s ∧ h.action = "REVIEW"
      · rw [if_pos ((hiff "REVIEW").mpr hR), if_pos hR]
      · rw [if_neg (fun hc => hR ((hiff "REVIEW").mp hc)), if_neg hR]

/-- C1: on a batch with well-formed string transaction ids and controls whose
actions lie in the ALLOW/REVIEW/BLOCK vocabulary (as the data model requires),
every decision's final action is one of ALLOW/REVIEW/BLOCK; it is BLOCK iff
some hit of that transaction carries action BLOCK, REVIEW iff no BLOCK hit but
some REVIEW hit exists, and ALLOW iff neither exists. -/
theorem final_action_resolution
    (ord : List String → List String) (hord : ∀ l, (ord l).Perm l.dedup)
    (tx : DF) (controls : List Control)
    (hact : ∀ c ∈ controls, c.action ∈ validActions)
    (hids : ∀ r ∈ tx.rows, ∃ s, rowGet r "tx_id" = Value.vStr s)
    (ds : List Decision) (hs : List Hit) (ms : List Metric)
    (heval : evaluate_controls ord tx controls = .ok (ds, hs, ms)) :
    ∀ d ∈ ds,
      d.final_action ∈ validActions ∧
      (d.final_action = "BLOCK" ↔
        ∃ h ∈ hs, h.tx_id = d.tx_id ∧ h.action = "BLOCK") ∧
      (d.final_action = "REVIEW" ↔
        ((¬ ∃ h ∈ hs, h.tx_id = d.tx_id ∧ h.action = "BLOCK") ∧
         ∃ h ∈ hs, h.tx_id = d.tx_id ∧ h.action = "REVIEW")) ∧
      (d.final_action = "ALLOW" ↔
        ((¬ ∃ h ∈ hs, h.tx_id = d.tx_id ∧ h.action = "BLOCK") ∧
         ¬ ∃ h ∈ hs, h.tx_id = d.tx_id ∧ h.action = "REVIEW")) := by
  intro d hd
  obtain ⟨hfind, hhits, hds, hmet⟩ :=
    evaluate_controls_ok ord tx controls ds hs ms heval
  subst hds
  rcases List.mem_map.mp hd with ⟨r, hr, rfl⟩
  rcases hids r hr with ⟨s, hkey⟩
  have hvalhits : ∀ h ∈ hs, h.tx_id = Value.vStr s → h.action ∈ validActions := by
    intro h hmem _
    rcases allHits_provenance tx controls hs hhits h hmem with ⟨c, hc, _, hac, _⟩
    rw [hac]
    exact hact c hc
  have hchar := decisionFor_final_char hs ord hord r s hkey hvalhits
  have hdtx : (decisionFor hs ord r).tx_id = Value.vStr s := by
    show rowGet r "tx_id" = Value.vStr s
    exact hkey
  rw [hdtx, hchar]
  by_cases hB : ∃ h ∈ hs, h.tx_id = Value.vStr s ∧ h.action = "BLOCK"
  · rw [if_pos hB]
    refine ⟨by decide, ⟨fun _ => hB, fun _ => rfl⟩, ?_, ?_⟩
    · exact ⟨fun hc => absurd hc (by decide), fun hc => absurd hB hc.1⟩
    · exact ⟨fun hc => absurd hc (by decide), fun hc => absurd hB hc.1⟩
  · rw [if_neg hB]
    by_cases hR : ∃ h ∈ hs, h.tx_id = Value.vStr s ∧ h.action = "REVIEW"
    · rw [if_pos hR]
      refine ⟨by decide, ?_, ⟨fun _ => ⟨hB, hR⟩, fun _ => rfl⟩, ?_⟩
      · exact ⟨fun hc => absurd hc (by decide), fun hc => absurd hc hB⟩
      · exact ⟨fun hc => absurd hc (by decide), fun hc => absurd hR hc.2⟩
    · rw [if_neg hR]
      refine ⟨by decide, ?_, ?_, ⟨fun _ => ⟨hB, hR⟩, fun _ => rfl⟩⟩
      · exact ⟨fun hc => absurd hc (by decide), fun hc => absurd hc hB⟩
      · exact ⟨fun hc => absurd hc (by decide), fun hc => absurd hc.2 hR⟩

/-- C2: with unique transaction ids the decisions table has exactly one row
per input transaction, in input order (so no duplicates and no omissions),
and a transaction with no hits gets ALLOW with empty triggered fields. -/
theorem decisions_one_row_per_tx
    (ord : List String → List String) (tx : DF) (controls : List Control)
    (hnodup : (tx.rows.map (fun r => rowGet r "tx_id")).Nodup)
    (ds : List Decision) (hs : List Hit) (ms : List Metric)
    (heval : evaluate_controls ord tx controls = .ok (ds, hs, ms)) :
    ds.map (fun d => d.tx_id) = tx.rows.map (fun r => rowGet r "tx_id") ∧
    (ds.map (fun d => d.tx_id)).Nodup ∧
    ∀ d ∈ ds, (∀ h ∈ hs, h.tx_id ≠ d.tx_id) →
      d.final_action = "ALLOW" ∧ d.triggered_controls = "" ∧
      d.triggered_actions = "" := by
  obtain ⟨-, -, hds, -⟩ := evaluate_controls_ok ord tx controls ds hs ms heval
  subst hds
  have hmap : (tx.rows.map (decisionFor hs ord)).map (fun d => d.tx_id) =
      tx.rows.map (fun r => rowGet r "tx_id") := by
    rw [List.map_map]
    rfl
  refine ⟨hmap, hmap ▸ hnodup, ?_⟩
  intro d hd hnone
  rcases List.mem_map.mp hd with ⟨r, hr, rfl⟩
  have hgrp : hs.filter (fun h => mergeKeyEq h.tx_id (rowGet r "tx_id")) = [] := by
    rw [List.filter_eq_nil_iff]
    intro h hmem hcontra
    exact hnone h hmem (mergeKeyEq_eq hcontra)
  have he : (hs.filter (fun h => mergeKeyEq h.tx_id (rowGet r "tx_id"))).isEmpty
      = true := by
    rw [hgrp]
    rfl
  refine ⟨?_, ?_, ?_⟩
  · show (if (hs.filter (fun h => mergeKeyEq h.tx_id (rowGet r "tx_id"))).isEmpty
        then "ALLOW"
        else resolve_final_action
          (ord ((hs.filter (fun h =>
            mergeKeyEq h.tx_id (rowGet r "tx_id"))).map (fun h => h.action)))) =
      "ALLOW"
    rw [if_pos he]
  · show (if (hs.filter (fun h => mergeKeyEq h.tx_id (rowGet r "tx_id"))).isEmpty
        then ""
        else sortedSetJoin ((hs.filter (fun h =>
          mergeKeyEq h.tx_id (rowGet r "tx_id"))).map (fun h => h.control_id))) = ""
    rw [if_pos he]
  · show (if (hs.filter (fun h => mergeKeyEq h.tx_id (rowGet r "tx_id"))).isEmpty
        then ""
        else sortedSetJoin ((hs.filter (fun h =>
          mergeKeyEq h.tx_id (rowGet r "tx_id"))).map (fun h => h.action))) = ""
    rw [if_pos he]

/-- C3: every hit a control emits comes from a record of the control's own
rail (so a CARD control never hits an ACH or CRYPTO transaction, whatever its
conditions), and a control whose rail has no records is skipped: it produces
no hits at all. -/
theorem hits_rail_scoped (tx : DF) (c : Control) (hs : List Hit)
    (hok : controlHits tx c = .ok hs) :
    (∀ x ∈ hs, x.rail = Value.vStr c.rail ∧
       (∀ s, s ≠ c.rail → x.rail ≠ Value.vStr s) ∧
       ∃ r ∈ tx.rows, rowGet r "rail" = Value.vStr c.rail ∧
         x.tx_id = rowGet r "tx_id") ∧
    ((railFilter tx c.rail).rows = [] → hs = []) := by
  constructor
  · intro x hx
    rcases controlHits_shape tx c hs hok x hx with ⟨-, -, -, -, r, hr, hrail, hid, hxr⟩
    have hxrail : x.rail = Value.vStr c.rail := by rw [hxr, hrail]
    refine ⟨hxrail, ?_, r, hr, hrail, hid⟩
    intro s hne hcontra
    rw [hxrail] at hcontra
    exact hne (Value.vStr.inj hcontra).symm
  · intro hemp
    rw [controlHits_empty_rail tx c hemp] at hok
    exact (Except.ok.inj hok).symm

/-! ## Lemmas: classification of run-time errors (for the fail-fast claim) -/

/-- The error messages the engine can produce after the required-column check
has passed. -/
def engineErrs : List String := [isinErrMsg, floatErrMsg, listCmpErrMsg, meanErrMsg]

lemma evalCondition_error_mem (df : DF) (k : String) (v : CondVal) (r : Row)
    (e : String) (h : evalCondition df k v r = .error e) : e ∈ engineErrs := by
  unfold evalCondition at h
  split at h
  · cases v <;> simp_all [engineErrs]
  · split at h
    · split at h <;> simp_all [engineErrs]
    · split at h
      · split at h <;> simp_all [engineErrs]
      · cases v <;> simp_all [engineErrs]

lemma rowMatches_error_mem (df : DF) :
    ∀ (conds : List (String × CondVal)) (r : Row) (e : String),
      rowMatches df conds r = .error e → e ∈ engineErrs := by
  intro conds
  induction conds with
  | nil =>
    intro r e h
    cases h
  | cons kv rest ih =>
    intro r e h
    simp only [rowMatches] at h
    cases hc : evalCondition df kv.1 kv.2 r with
    | error e2 =>
      rw [hc, exceptBind_error] at h
      cases h
      exact evalCondition_error_mem df kv.1 kv.2 r e hc
    | ok b =>
      rw [hc, exceptBind_ok] at h
      cases hr : rowMatches df rest r with
      | error e2 =>
        rw [hr, exceptBind_error] at h
        cases h
        exact ih r e hr
      | ok b2 =>
        rw [hr, exceptBind_ok] at h
        cases h

lemma maskRows_error_mem (df : DF) (conds : List (String × CondVal)) :
    ∀ (rs : List Row) (e : String),
      maskRows df conds rs = .error e → e ∈ engineErrs := by
  intro rs
  induction rs with
  | nil =>
    intro e h
    cases h
  | cons r rest ih =>
    intro e h
    simp only [maskRows] at h
    cases hc : rowMatches df conds r with
    | error e2 =>
      rw [hc, exceptBind_error] at h
      cases h
      exact rowMatches_error_mem df conds r e hc
    | ok b =>
      rw [hc, exceptBind_ok] at h
      cases hr : maskRows df conds rest with
      | error e2 =>
        rw [hr, exceptBind_error] at h
        cases h
        exact ih e hr
      | ok out =>
        rw [hr, exceptBind_ok] at h
        cases h

lemma controlHits_error_mem (tx : DF) (c : Control) (e : String)
    (h : controlHits tx c = .error e) : e ∈ engineErrs := by
  unfold controlHits at h
  dsimp only [] at h
  split at h
  · cases h
  · cases hm : maskRows (railFilter tx c.rail) c.conditions (railFilter tx c.rail).rows with
    | error e2 =>
      rw [hm, exceptBind_error] at h
      cases h
      exact maskRows_error_mem _ _ _ e hm
    | ok out =>
      rw [hm, exceptBind_ok] at h
      cases h

lemma allHits_error_mem (tx : DF) :
    ∀ (controls : List Control) (e : String),
      allHits tx controls = .error e → e ∈ engineErrs := by
  intro controls
  induction controls with
  | nil =>
    intro e h
    cases h
  | cons c cs ih =>
    intro e h
    simp only [allHits] at h
    cases hc : controlHits tx c with
    | error e2 =>
      rw [hc, exceptBind_error] at h
      cases h
      exact controlHits_error_mem tx c e hc
    | ok h1 =>
      rw [hc, exceptBind_ok] at h
      cases hr : allHits tx cs with
      | error e2 =>
        rw [hr, exceptBind_error] at h
        cases h
        exact ih e hr
      | ok h2 =>
        rw [hr, exceptBind_ok] at h
        cases h

lemma meanNumeric_error_mem (vs : List Value) (e : String)
    (h : meanNumeric vs = .error e) : e ∈ engineErrs := by
  unfold meanNumeric at h
  dsimp only [] at h
  split at h
  · cases h
    simp [engineErrs]
  · split at h <;> cases h

lemma metricFor_error_mem (total : Nat) (labeled : List (Hit × Value))
    (cid : String) (e : String) (h : metricFor total labeled cid = .error e) :
    e ∈ engineErrs := by
  unfold metricFor at h
  dsimp only [] at h
  cases hm : meanNumeric ((labeled.filter (fun p => p.1.control_id = cid)).map
      (fun p => p.2)) with
  | error e2 =>
    rw [hm, exceptBind_error] at h
    cases h
    exact meanNumeric_error_mem _ e hm
  | ok m =>
    rw [hm, exceptBind_ok] at h
    cases h

lemma metricRows_error_mem (total : Nat) (labeled : List (Hit × Value)) :
    ∀ (cids : List String) (e : String),
      metricRows total labeled cids = .error e → e ∈ engineErrs := by
  intro cids
  induction cids with
  | nil =>
    intro e h
    cases h
  | cons cid cs ih =>
    intro e h
    simp only [metricRows] at h
    cases hc : metricFor total labeled cid with
    | error e2 =>
      rw [hc, exceptBind_error] at h
      cases h
      exact metricFor_error_mem total labeled cid e hc
    | ok m =>
      rw [hc, exceptBind_ok] at h
      cases hr : metricRows total labeled cs with
      | error e2 =>
        rw [hr, exceptBind_error] at h
        cases h
        exact ih e hr
      | ok rest =>
        rw [hr, exceptBind_ok] at h
        cases h

lemma metricsFor_error_mem (tx : DF) (hits : List Hit) (e : String)
    (h : metricsFor tx hits = .error e) : e ∈ engineErrs := by
  unfold metricsFor at h
  dsimp only [] at h
  split at h
  · cases h
  · cases hm : metricRows tx.rows.length (hits.flatMap (joinLabel tx))
        (((hits.flatMap (joinLabel tx)).map (fun p => p.1.control_id)).dedup.insertionSort
          (fun a b => a ≤ b)) with
    | error e2 =>
      rw [hm, exceptBind_error] at h
      cases h
      exact metricRows_error_mem _ _ _ e hm
    | ok rows =>
      rw [hm, exceptBind_ok] at h
      cases h

/-- After the required-column check passes, any error the pass can still
produce is a condition/aggregation error, never the missing-column message. -/
lemma evaluate_controls_error_mem (ord : List String → List String) (tx : DF)
    (controls : List Control) (e : String)
    (hfind : requiredCols.find? (fun c => !(tx.cols.contains c)) = none)
    (h : evaluate_controls ord tx controls = .error e) : e ∈ engineErrs := by
  unfold evaluate_controls at h
  rw [hfind] at h
  cases hh : allHits tx controls with
  | error e2 =>
    rw [hh, exceptBind_error] at h
    cases h
    exact allHits_error_mem tx controls e hh
  | ok hs =>
    rw [hh, exceptBind_ok] at h
    cases hm : metricsFor tx hs with
    | error e2 =>
      rw [hm, exceptBind_error] at h
      cases h
      exact metricsFor_error_mem tx hs e hm
    | ok ms =>
      rw [hm, exceptBind_ok] at h
      cases h

/-- C5: the pass fails with the message naming a required column exactly when
one of the six required columns is absent, and in that case nothing is
produced (the check runs before any control is evaluated). -/
theorem required_column_fail_fast (ord : List String → List String) (tx : DF)
    (controls : List Control) :
    ((∃ c ∈ requiredCols, c ∉ tx.cols) ↔
      ∃ c ∈ requiredCols,
        evaluate_controls ord tx controls = .error (missingColMsg c)) ∧
    ((∃ c ∈ requiredCols, c ∉ tx.cols) →
      ∀ out, evaluate_controls ord tx controls ≠ .ok out) := by
  have hforward : (∃ c ∈ requiredCols, c ∉ tx.cols) →
      ∃ c ∈ requiredCols,
        evaluate_controls ord tx controls = .error (missingColMsg c) := by
    intro hex
    cases hfind : requiredCols.find? (fun c => !(tx.cols.contains c)) with
    | none =>
      exfalso
      rcases hex with ⟨c, hc, hnc⟩
      have := List.find?_eq_none.mp hfind c hc
      simp only [Bool.not_eq_true', Bool.not_eq_false] at this
      exact hnc (List.mem_of_elem_eq_true (by simpa using this))
    | some c0 =>
      refine ⟨c0, List.mem_of_find?_eq_some hfind, ?_⟩
      unfold evaluate_controls
      rw [hfind]
  constructor
  · constructor
    · exact hforward
    · intro hex
      rcases hex with ⟨c, hc, herr⟩
      by_contra hno
      push_neg at hno
      have hfind : requiredCols.find? (fun c => !(tx.cols.contains c)) = none := by
        rw [List.find?_eq_none]
        intro a ha
        simp only [Bool.not_eq_true', Bool.not_eq_false]
        exact List.elem_eq_true_of_mem (hno a ha)
      have hmem := evaluate_controls_error_mem ord tx controls _ hfind herr
      simp only [requiredCols, List.mem_cons, List.not_mem_nil, or_false] at hc
      rcases hc with rfl | rfl | rfl | rfl | rfl | rfl <;>
        revert hmem <;> decide
  · intro hex out
    rcases hforward hex with ⟨c, hc, herr⟩
    rw [herr]
    intro hcontra
    cases hcontra

/-! ## Lemmas: rounding -/

lemma roundHalfEven_cases (q : ℚ) :
    roundHalfEven q = ⌊q⌋ ∨ roundHalfEven q = ⌊q⌋ + 1 := by
  unfold roundHalfEven
  dsimp only []
  split
  · left; rfl
  · split
    · right; rfl
    · split
      · left; rfl
      · right; rfl

lemma roundHalfEven_bounds (q : ℚ) (a b : ℤ) (ha : (a : ℚ) ≤ q)
    (hb : q ≤ (b : ℚ)) : a ≤ roundHalfEven q ∧ roundHalfEven q ≤ b := by
  have hfl : a ≤ ⌊q⌋ := Int.le_floor.mpr ha
  have hfu : ⌊q⌋ ≤ b := by
    have h1 : (⌊q⌋ : ℚ) ≤ (b : ℚ) := le_trans (Int.floor_le q) hb
    exact_mod_cast h1
  constructor
  · rcases roundHalfEven_cases q with h | h <;> omega
  · unfold roundHalfEven
    dsimp only []
    split
    · exact hfu
    · have hhalf : (1 : ℚ) / 2 ≤ q - (⌊q⌋ : ℚ) := by linarith
      have hlt : (⌊q⌋ : ℚ) < (b : ℚ) := by linarith
      have : ⌊q⌋ < b := by exact_mod_cast hlt
      split
      · omega
      · split <;> omega

lemma round4_unit (q : ℚ) (h0 : 0 ≤ q) (h1 : q ≤ 1) :
    0 ≤ round4 q ∧ round4 q ≤ 1 := by
  have hb := roundHalfEven_bounds (q * 10000) 0 10000
    (by push_cast; linarith) (by push_cast; linarith)
  unfold round4
  constructor
  · apply div_nonneg
    · exact_mod_cast hb.1
    · norm_num
  · rw [div_le_one (by norm_num : (0 : ℚ) < 10000)]
    exact_mod_cast hb.2

lemma roundHalfEven_intCast (n : ℤ) : roundHalfEven (n : ℚ) = n := by
  unfold roundHalfEven
  dsimp only []
  rw [Int.floor_intCast]
  rw [if_pos (by rw [sub_self]; norm_num : (n : ℚ) - (n : ℚ) < 1 / 2)]

lemma round4_idem (q : ℚ) : round4 (round4 q) = round4 q := by
  unfold round4
  rw [div_mul_cancel₀ _ (by norm_num : (10000 : ℚ) ≠ 0)]
  rw [roundHalfEven_intCast]

/-! ## Lemmas: the label join and metric grouping -/

lemma joinLabel_fst (tx : DF) (h : Hit) : ∀ p ∈ joinLabel tx h, p.1 = h := by
  intro p hp
  unfold joinLabel at hp
  dsimp only [] at hp
  split at hp
  · have hp2 := List.mem_singleton.mp hp
    rw [hp2]
  · rcases List.mem_map.mp hp with ⟨r, _, hpr⟩
    rw [← hpr]

lemma joinLabel_ne_nil (tx : DF) (h : Hit) : joinLabel tx h ≠ [] := by
  unfold joinLabel
  dsimp only []
  split
  · simp
  · rename_i hne
    intro hcontra
    rw [List.map_eq_nil_iff] at hcontra
    rw [hcontra] at hne
    exact hne rfl

/-- With a duplicate-free key column, a filter pinned to one key value keeps
at most one element. -/
lemma nodup_filter_key_le_one {α β : Type} [DecidableEq β] (f : α → β) (k : β)
    (p : α → Bool) (hp : ∀ x, p x = true → f x = k) :
    ∀ (l : List α), (l.map f).Nodup → (l.filter p).length ≤ 1 := by
  intro l
  induction l with
  | nil => intro _; simp
  | cons a t ih =>
    intro hnd
    rw [List.map_cons, List.nodup_cons] at hnd
    by_cases hpa : p a = true
    · rw [List.filter_cons_of_pos hpa]
      have htnil : t.filter p = [] := by
        rw [List.filter_eq_nil_iff]
        intro x hx hpx
        exact hnd.1 (List.mem_map.mpr ⟨x, hx, by rw [hp x hpx, hp a hpa]⟩)
      rw [htnil]
      simp
    · rw [List.filter_cons_of_neg (by simpa using hpa)]
      exact ih hnd.2

/-- With unique transaction ids, the left join attaches exactly one row to
every hit (a hit whose key matches no row is still kept once, with NaN). -/
lemma joinLabel_length_one (tx : DF) (h : Hit)
    (hnodup : (tx.rows.map (fun r => rowGet r "tx_id")).Nodup) :
    (joinLabel tx h).length = 1 := by
  unfold joinLabel
  dsimp only []
  split
  · simp
  · rename_i hne
    rw [List.length_map]
    have hle : (tx.rows.filter (fun r =>
        mergeKeyEq (rowGet r "tx_id") h.tx_id &&
        mergeKeyEq (rowGet r "rail") h.rail)).length ≤ 1 := by
      apply nodup_filter_key_le_one (fun r => rowGet r "tx_id") h.tx_id _ _ tx.rows hnodup
      intro r hr
      rw [Bool.and_eq_true] at hr
      exact mergeKeyEq_eq hr.1
    have hpos : (tx.rows.filter (fun r =>
        mergeKeyEq (rowGet r "tx_id") h.tx_id &&
        mergeKeyEq (rowGet r "rail") h.rail)).length ≠ 0 := by
      intro hzero
      have h0 := List.length_eq_zero.mp hzero
      exact hne (by rw [h0]; rfl)
    omega

/-- With unique transaction ids, each metric group has exactly as many rows
as the control has hits. -/
lemma labeled_filter_length (tx : DF)
    (hnodup : (tx.rows.map (fun r => rowGet r "tx_id")).Nodup) (cid : String) :
    ∀ (hs : List Hit),
      ((hs.flatMap (joinLabel tx)).filter
        (fun p => p.1.control_id = cid)).length =
      (hs.filter (fun h => h.control_id = cid)).length := by
  intro hs
  induction hs with
  | nil => simp
  | cons h t ih =>
    rw [List.flatMap_cons, List.filter_append, List.length_append, ih]
    by_cases hc : h.control_id = cid
    · have hall : (joinLabel tx h).filter (fun p => p.1.control_id = cid) =
          joinLabel tx h := by
        rw [List.filter_eq_self]
        intro p hp
        rw [joinLabel_fst tx h p hp]
        simpa using hc
      rw [hall, List.filter_cons_of_pos (by simpa using hc), joinLabel_length_one tx h hnodup]
      rw [List.length_cons]
      omega
    · have hnone : (joinLabel tx h).filter (fun p => p.1.control_id = cid) = [] := by
        rw [List.filter_eq_nil_iff]
        intro p hp hpc
        rw [joinLabel_fst tx h p hp] at hpc
        exact hc (by simpa using hpc)
      rw [hnone, List.filter_cons_of_neg (by simpa using hc)]
      simp

/-- A control id occurs among the label-joined pairs iff some hit carries it. -/
lemma labeled_cid_mem (tx : DF) (hs : List Hit) (cid : String) :
    cid ∈ (hs.flatMap (joinLabel tx)).map (fun p => p.1.control_id) ↔
      ∃ h ∈ hs, h.control_id = cid := by
  constructor
  · intro hc
    rcases List.mem_map.mp hc with ⟨p, hp, hpc⟩
    rcases List.mem_flatMap.mp hp with ⟨h, hh, hph⟩
    exact ⟨h, hh, by rw [← hpc, joinLabel_fst tx h p hph]⟩
  · intro hex
    rcases hex with ⟨h, hh, hc⟩
    have hne := joinLabel_ne_nil tx h
    rcases List.exists_mem_of_ne_nil _ hne with ⟨p, hp⟩
    refine List.mem_map.mpr ⟨p, List.mem_flatMap.mpr ⟨h, hh, hp⟩, ?_⟩
    rw [joinLabel_fst tx h p hp, hc]

lemma metricFor_ok_fields (total : Nat) (labeled : List (Hit × Value))
    (cid : String) (m : Metric) (h : metricFor total labeled cid = .ok m) :
    m.control_id = cid ∧
    m.hits = (labeled.filter (fun p => p.1.control_id = cid)).length ∧
    m.hit_rate = round4 ((m.hits : ℚ) / (total : ℚ)) ∧
    ∃ mm, meanNumeric ((labeled.filter (fun p => p.1.control_id = cid)).map
        (fun p => p.2)) = .ok mm ∧
      m.precision_proxy = mm.map round4 := by
  unfold metricFor at h
  dsimp only [] at h
  cases hm : meanNumeric ((labeled.filter (fun p => p.1.control_id = cid)).map
      (fun p => p.2)) with
  | error e =>
    rw [hm, exceptBind_error] at h
    cases h
  | ok mm =>
    rw [hm, exceptBind_ok, exceptPure_def] at h
    cases h
    exact ⟨rfl, rfl, rfl, mm, rfl, rfl⟩

lemma metricRows_ok_struct (total : Nat) (labeled : List (Hit × Value)) :
    ∀ (cids : List String) (rows : List Metric),
      metricRows total labeled cids = .ok rows →
      rows.map (fun m => m.control_id) = cids ∧
      ∀ m ∈ rows, metricFor total labeled m.control_id = .ok m := by
  intro cids
  induction cids with
  | nil =>
    intro rows h
    cases h
    exact ⟨rfl, by intro m hm; cases hm⟩
  | cons cid cs ih =>
    intro rows h
    simp only [metricRows] at h
    cases hc : metricFor total labeled cid with
    | error e => rw [hc, exceptBind_error] at h; cases h
    | ok m0 =>
      rw [hc, exceptBind_ok] at h
      cases hr : metricRows total labeled cs with
      | error e => rw [hr, exceptBind_error] at h; cases h
      | ok rest =>
        rw [hr, exceptBind_ok, exceptPure_def] at h
        cases h
        have hcid0 : m0.control_id = cid := (metricFor_ok_fields _ _ _ _ hc).1
        obtain ⟨hmap, hall⟩ := ih rest hr
        refine ⟨by rw [List.map_cons, hmap, hcid0], ?_⟩
        intro m hm
        rcases List.mem_cons.mp hm with rfl | hm2
        · rw [hcid0]
          exact hc
        · exact hall m hm2

lemma metricsFor_ok_struct (tx : DF) (hits : List Hit) (ms : List Metric)
    (h : metricsFor tx hits = .ok ms) :
    (hits = [] ∧ ms = []) ∨
    (hits ≠ [] ∧ ∃ rows,
      metricRows tx.rows.length (hits.flatMap (joinLabel tx))
        (((hits.flatMap (joinLabel tx)).map
          (fun p => p.1.control_id)).dedup.insertionSort (fun a b => a ≤ b)) =
        .ok rows ∧
      ms = rows.insertionSort (fun a b => b.hits ≤ a.hits)) := by
  unfold metricsFor at h
  dsimp only [] at h
  split at h
  · left
    cases h
    rename_i hemp
    exact ⟨List.isEmpty_iff.mp hemp, rfl⟩
  · right
    rename_i hemp
    refine ⟨fun hnil => hemp (by rw [hnil]; rfl), ?_⟩
    cases hr : metricRows tx.rows.length (hits.flatMap (joinLabel tx))
        (((hits.flatMap (joinLabel tx)).map
          (fun p => p.1.control_id)).dedup.insertionSort (fun a b => a ≤ b)) with
    | error e => rw [hr, exceptBind_error] at h; cases h
    | ok rows =>
      rw [hr, exceptBind_ok, exceptPure_def] at h
      cases h
      exact ⟨rows, rfl, rfl⟩

/-- Counting occurrences of a key in a list whose keys are duplicate-free. -/
lemma filter_count_of_map_nodup {α β : Type} [DecidableEq β] (f : α → β) (k : β) :
    ∀ (l : List α), (l.map f).Nodup →
      (l.filter (fun x => f x = k)).length = if k ∈ l.map f then 1 else 0 := by
  intro l
  induction l with
  | nil => intro _; simp
  | cons a t ih =>
    intro hnd
    rw [List.map_cons, List.nodup_cons] at hnd
    by_cases hk : f a = k
    · rw [List.filter_cons_of_pos (by simpa using hk)]
      have htnil : t.filter (fun x => f x = k) = [] := by
        rw [List.filter_eq_nil_iff]
        intro x hx hfx
        exact hnd.1 (List.mem_map.mpr ⟨x, hx, by rw [of_decide_eq_true hfx, hk]⟩)
      rw [htnil, if_pos (by rw [List.map_cons, ← hk]; exact List.mem_cons_self _ _)]
      simp [hk]
    · rw [List.filter_cons_of_neg (by simpa using hk)]
      rw [ih hnd.2, List.map_cons]
      by_cases hmem : k ∈ t.map f
      · rw [if_pos hmem, if_pos (List.mem_cons_of_mem _ hmem)]
      · rw [if_neg hmem, if_neg]
        intro hcontra
        rcases List.mem_cons.mp hcontra with hh | hh
        · exact hk hh.symm
        · exact hmem hh

/-- C6: with unique transaction ids, the metrics table has exactly one row per
control id with at least one hit (zero-hit controls are absent), each row
reports the true hit count, its hit rate is the hit count over the total
transaction population rounded to 4 decimals, the precision proxy is a
4-decimal rounded value, and rows are sorted by descending hit count. -/
theorem metrics_table_shape
    (ord : List String → List String) (tx : DF) (controls : List Control)
    (hnodup : (tx.rows.map (fun r => rowGet r "tx_id")).Nodup)
    (ds : List Decision) (hs : List Hit) (ms : List Metric)
    (heval : evaluate_controls ord tx controls = .ok (ds, hs, ms)) :
    (∀ cid : String, (ms.filter (fun m => m.control_id = cid)).length =
        if ∃ h ∈ hs, h.control_id = cid then 1 else 0) ∧
    (∀ m ∈ ms, 0 < m.hits ∧
        m.hits = (hs.filter (fun h => h.control_id = m.control_id)).length ∧
        m.hit_rate = round4 ((m.hits : ℚ) / (tx.rows.length : ℚ)) ∧
        (∀ p, m.precision_proxy = some p → round4 p = p)) ∧
    List.Pairwise (fun a b => b.hits ≤ a.hits) ms := by
  obtain ⟨-, -, -, hmet⟩ := evaluate_controls_ok ord tx controls ds hs ms heval
  rcases metricsFor_ok_struct tx hs ms hmet with ⟨hnil, hmsnil⟩ | ⟨hne, rows, hrows, hmssort⟩
  · subst hnil
    subst hmsnil
    refine ⟨?_, ?_, ?_⟩
    · intro cid
      rw [if_neg]
      · rfl
      · intro hcontra
        rcases hcontra with ⟨h, hh, -⟩
        cases hh
    · intro m hm
      cases hm
    · exact List.Pairwise.nil
  · set labeled := hs.flatMap (joinLabel tx) with hlab
    set cids := (labeled.map (fun p => p.1.control_id)).dedup.insertionSort
      (fun a b => a ≤ b) with hcids
    obtain ⟨hmap, hall⟩ := metricRows_ok_struct _ _ _ _ hrows
    have hsortperm : ms.Perm rows := by
      rw [hmssort]
      exact List.perm_insertionSort _ rows
    have hcidsnodup : cids.Nodup := by
      rw [hcids]
      exact ((List.perm_insertionSort _ _).nodup_iff).mpr (List.nodup_dedup _)
    have hcidmem : ∀ cid : String, cid ∈ cids ↔ ∃ h ∈ hs, h.control_id = cid := by
      intro cid
      rw [hcids, (List.perm_insertionSort _ _).mem_iff, List.mem_dedup]
      exact labeled_cid_mem tx hs cid
    refine ⟨?_, ?_, ?_⟩
    · intro cid
      have hperm2 := (hsortperm.filter (fun m => decide (m.control_id = cid))).length_eq
      rw [hperm2]
      have hcount := filter_count_of_map_nodup (fun m => m.control_id) cid rows
        (by rw [hmap]; exact hcidsnodup)
      rw [hcount, hmap]
      by_cases hmem : cid ∈ cids
      · rw [if_pos hmem, if_pos ((hcidmem cid).mp hmem)]
      · rw [if_neg hmem, if_neg (fun hc => hmem ((hcidmem cid).mpr hc))]
    · intro m hm
      have hmrows : m ∈ rows := hsortperm.subset hm
      have hfor := hall m hmrows
      obtain ⟨-, hhits, hrate, mm, hmean, hprec⟩ :=
        metricFor_ok_fields _ _ _ _ hfor
      have hcidin : m.control_id ∈ cids := by
        rw [← hmap]
        exact List.mem_map.mpr ⟨m, hmrows, rfl⟩
      have hlen : m.hits = (hs.filter
          (fun h => h.control_id = m.control_id)).length := by
        rw [hhits, hlab]
        exact labeled_filter_length tx hnodup m.control_id hs
      refine ⟨?_, hlen, hrate, ?_⟩
      · rcases (hcidmem m.control_id).mp hcidin with ⟨h, hh, hc⟩
        have : h ∈ hs.filter (fun h => h.control_id = m.control_id) :=
          List.mem_filter.mpr ⟨hh, by simpa using hc⟩
        have hpos := List.length_pos.mpr (List.ne_nil_of_mem this)
        omega
      · intro p hp
        rw [hprec] at hp
        cases mm with
        | none => cases hp
        | some q =>
          have : p = round4 q := (Option.some.inj hp).symm
          rw [this]
          exact round4_idem q
    · rw [hmssort]
      have htot : IsTotal Metric (fun a b => b.hits ≤ a.hits) :=
        ⟨fun a b => le_total b.hits a.hits⟩
      have htrans : IsTrans Metric (fun a b => b.hits ≤ a.hits) :=
        ⟨fun a b c hab hbc => le_trans hbc hab⟩
      exact List.sorted_insertionSort _ rows

/-! ## Lemmas: bounds for C7 -/

/-- With duplicate-free control ids, the hits filtered to one control id are
the hits of a single control, hence no more numerous than the batch. -/
lemma hits_filter_cid_le (tx : DF) :
    ∀ (controls : List Control) (hs : List Hit),
      allHits tx controls = .ok hs →
      (controls.map (fun c => c.control_id)).Nodup →
      ∀ cid : String,
        (hs.filter (fun h => h.control_id = cid)).length ≤ tx.rows.length := by
  intro controls
  induction controls with
  | nil =>
    intro hs h _ cid
    cases h
    simp
  | cons c cs ih =>
    intro hs h hnd cid
    rw [List.map_cons, List.nodup_cons] at hnd
    rcases allHits_cons tx c cs hs h with ⟨h1, h2, hc, hcs, rfl⟩
    rw [List.filter_append, List.length_append]
    by_cases hcid : cid = c.control_id
    · have h2nil : h2.filter (fun h => h.control_id = cid) = [] := by
        rw [List.filter_eq_nil_iff]
        intro x hx hxc
        rcases allHits_provenance tx cs h2 hcs x hx with ⟨c2, hc2, hxcid, -⟩
        apply hnd.1
        rw [← hcid, ← of_decide_eq_true hxc, hxcid]
        exact List.mem_map.mpr ⟨c2, hc2, rfl⟩
      rw [h2nil]
      have hle1 : (h1.filter (fun h => h.control_id = cid)).length ≤ h1.length :=
        List.length_filter_le _ _
      have hle2 := controlHits_length tx c h1 hc
      simp only [List.length_nil]
      omega
    · have h1nil : h1.filter (fun h => h.control_id = cid) = [] := by
        rw [List.filter_eq_nil_iff]
        intro x hx hxc
        have := (controlHits_shape tx c h1 hc x hx).1
        exact hcid (by rw [← of_decide_eq_true hxc, this])
      rw [h1nil]
      simp only [List.length_nil]
      have := ih h2 hcs hnd.2 cid
      omega

/-- When the hit joins back to a real row (string keys) and the label column
is boolean, every joined label is boolean. -/
lemma joinLabel_label_bool (tx : DF) (h : Hit)
    (hlabels : ∀ r ∈ tx.rows, ∃ b, rowGet r "is_fraud_pattern" = Value.vBool b)
    (hsrc : ∃ r ∈ tx.rows, rowGet r "tx_id" = h.tx_id ∧ rowGet r "rail" = h.rail)
    (hid : ∃ s, h.tx_id = Value.vStr s) (hrail : ∃ s, h.rail = Value.vStr s) :
    ∀ p ∈ joinLabel tx h, ∃ b, p.2 = Value.vBool b := by
  intro p hp
  unfold joinLabel at hp
  dsimp only [] at hp
  rcases hsrc with ⟨r0, hr0, hr0id, hr0rail⟩
  rcases hid with ⟨s, hs⟩
  rcases hrail with ⟨s2, hs2⟩
  have hr0mem : r0 ∈ tx.rows.filter (fun r =>
      mergeKeyEq (rowGet r "tx_id") h.tx_id &&
      mergeKeyEq (rowGet r "rail") h.rail) := by
    rw [List.mem_filter]
    refine ⟨hr0, ?_⟩
    rw [Bool.and_eq_true]
    constructor
    · rw [hs] at hr0id ⊢
      exact (mergeKeyEq_vStr _ s).mpr hr0id
    · rw [hs2] at hr0rail ⊢
      exact (mergeKeyEq_vStr _ s2).mpr hr0rail
  rw [if_neg (by
    intro hcontra
    rw [List.isEmpty_iff] at hcontra
    rw [hcontra] at hr0mem
    cases hr0mem)] at hp
  rcases List.mem_map.mp hp with ⟨r, hr, hpr⟩
  have hrtx : r ∈ tx.rows := List.mem_of_mem_filter hr
  rcases hlabels r hrtx with ⟨b, hb⟩
  exact ⟨b, by rw [← hpr, hb]⟩

/-- A mean over a nonempty boolean column exists and lies in the unit
interval. -/
lemma meanNumeric_bools (vs : List Value)
    (hb : ∀ v ∈ vs, ∃ b, v = Value.vBool b) (hne : vs ≠ []) :
    ∃ q, meanNumeric vs = .ok (some q) ∧ 0 ≤ q ∧ q ≤ 1 := by
  have hnums : ∀ (l : List Value), (∀ v ∈ l, ∃ b, v = Value.vBool b) →
      (l.filterMap (fun v =>
        match v with
        | Value.vBool b => some (if b then (1 : ℚ) else 0)
        | Value.vNum q => some q
        | _ => none)).length = l.length ∧
      ∀ x ∈ l.filterMap (fun v =>
        match v with
        | Value.vBool b => some (if b then (1 : ℚ) else 0)
        | Value.vNum q => some q
        | _ => none), 0 ≤ x ∧ x ≤ 1 := by
    intro l
    induction l with
    | nil => intro _; exact ⟨rfl, by intro x hx; cases hx⟩
    | cons v t iht =>
      intro hbl
      rcases hbl v (List.mem_cons_self _ _) with ⟨b, rfl⟩
      obtain ⟨ih1, ih2⟩ := iht (fun w hw => hbl w (List.mem_cons_of_mem _ hw))
      rw [List.filterMap_cons]
      refine ⟨by simpa using ih1, ?_⟩
      intro x hx
      rcases List.mem_cons.mp hx with rfl | hx2
      · split <;> norm_num
      · exact ih2 x hx2
  obtain ⟨hlen, hmem⟩ := hnums vs hb
  set nums := vs.filterMap (fun v =>
    match v with
    | Value.vBool b => some (if b then (1 : ℚ) else 0)
    | Value.vNum q => some q
    | _ => none) with hnumsdef
  have hpos : 0 < nums.length := by
    rw [hlen]
    exact List.length_pos.mpr hne
  have hsum0 : 0 ≤ nums.sum := List.sum_nonneg (fun x hx => (hmem x hx).1)
  have hsum1 : nums.sum ≤ (nums.length : ℚ) := by
    have := List.sum_le_card_nsmul nums 1 (fun x hx => (hmem x hx).2)
    simpa using this
  refine ⟨nums.sum / (nums.length : ℚ), ?_, ?_, ?_⟩
  · unfold meanNumeric
    dsimp only []
    rw [if_neg (by
      have hfalse : (vs.any fun v =>
          match v with | Value.vStr _ => true | _ => false) = false := by
        rw [List.any_eq_false]
        intro v hv
        rcases hb v hv with ⟨b, rfl⟩
        simp
      rw [hfalse]
      simp)]
    rw [if_neg (by
      intro hcontra
      rw [List.isEmpty_iff] at hcontra
      have h0 : nums = [] := by rw [hnumsdef]; exact hcontra
      rw [h0] at hpos
      cases hpos)]
  · apply div_nonneg hsum0
    exact_mod_cast Nat.zero_le _
  · rw [div_le_one (by exact_mod_cast hpos)]
    exact hsum1

/-- C7: on a batch with unique string transaction ids, a boolean fraud label,
and duplicate-free control ids (all data-model invariants), every metrics row
has a hit rate in [0, 1] and a defined precision proxy in [0, 1]; a zero-hit
control has no row at all (every row records a positive hit count). -/
theorem metrics_values_in_unit_interval
    (ord : List String → List String) (tx : DF) (controls : List Control)
    (hnodup : (tx.rows.map (fun r => rowGet r "tx_id")).Nodup)
    (hids : ∀ r ∈ tx.rows, ∃ s, rowGet r "tx_id" = Value.vStr s)
    (hlabels : ∀ r ∈ tx.rows, ∃ b, rowGet r "is_fraud_pattern" = Value.vBool b)
    (hcidnd : (controls.map (fun c => c.control_id)).Nodup)
    (ds : List Decision) (hs : List Hit) (ms : List Metric)
    (heval : evaluate_controls ord tx controls = .ok (ds, hs, ms)) :
    ∀ m ∈ ms, (0 ≤ m.hit_rate ∧ m.hit_rate ≤ 1) ∧
      (∃ p, m.precision_proxy = some p ∧ 0 ≤ p ∧ p ≤ 1) ∧
      0 < m.hits := by
  obtain ⟨-, hhits, -, hmet⟩ := evaluate_controls_ok ord tx controls ds hs ms heval
  rcases metricsFor_ok_struct tx hs ms hmet with ⟨-, hmsnil⟩ | ⟨hne, rows, hrows, hmssort⟩
  · subst hmsnil
    intro m hm
    cases hm
  · intro m hm
    set labeled := hs.flatMap (joinLabel tx) with hlab
    obtain ⟨hmap, hall⟩ := metricRows_ok_struct _ _ _ _ hrows
    have hsortperm : ms.Perm rows := by
      rw [hmssort]
      exact List.perm_insertionSort _ rows
    have hmrows : m ∈ rows := hsortperm.subset hm
    obtain ⟨-, hhitseq, hrate, mm, hmean, hprec⟩ :=
      metricFor_ok_fields _ _ _ _ (hall m hmrows)
    have hcidin : m.control_id ∈
        (labeled.map (fun p => p.1.control_id)).dedup.insertionSort
          (fun a b => a ≤ b) := by
      rw [← hmap]
      exact List.mem_map.mpr ⟨m, hmrows, rfl⟩
    have hcidhit : ∃ h ∈ hs, h.control_id = m.control_id := by
      have := ((List.perm_insertionSort _ _).mem_iff).mp hcidin
      rw [List.mem_dedup] at this
      exact (labeled_cid_mem tx hs m.control_id).mp this
    -- the group behind this metric row is nonempty
    have hgrpnil : labeled.filter (fun p => p.1.control_id = m.control_id) ≠ [] := by
      rcases hcidhit with ⟨h, hh, hc⟩
      rcases List.exists_mem_of_ne_nil _ (joinLabel_ne_nil tx h) with ⟨p, hp⟩
      intro hcontra
      have hpmem : p ∈ labeled.filter (fun p => p.1.control_id = m.control_id) := by
        rw [List.mem_filter]
        exact ⟨List.mem_flatMap.mpr ⟨h, hh, hp⟩,
          by rw [joinLabel_fst tx h p hp]; simpa using hc⟩
      rw [hcontra] at hpmem
      cases hpmem
    have hhitpos : 0 < m.hits := by
      rw [hhitseq]
      exact List.length_pos.mpr hgrpnil
    -- the batch is nonempty, and the hit count is at most the batch size
    have hrowspos : 0 < tx.rows.length := by
      rcases hcidhit with ⟨h, hh, -⟩
      rcases allHits_provenance tx controls hs hhits h hh with ⟨-, -, -, -, r, hr, -⟩
      exact List.length_pos.mpr (List.ne_nil_of_mem hr)
    have hcount : m.hits = (hs.filter
        (fun h => h.control_id = m.control_id)).length := by
      rw [hhitseq, hlab]
      exact labeled_filter_length tx hnodup m.control_id hs
    have hle : m.hits ≤ tx.rows.length := by
      rw [hcount]
      exact hits_filter_cid_le tx controls hs hhits hcidnd m.control_id
    have hratio0 : (0 : ℚ) ≤ (m.hits : ℚ) / (tx.rows.length : ℚ) :=
      div_nonneg (by exact_mod_cast Nat.zero_le _) (by exact_mod_cast Nat.zero_le _)
    have hratio1 : (m.hits : ℚ) / (tx.rows.length : ℚ) ≤ 1 := by
      rw [div_le_one (by exact_mod_cast hrowspos)]
      exact_mod_cast hle
    refine ⟨by rw [hrate]; exact round4_unit _ hratio0 hratio1, ?_, hhitpos⟩
    -- precision proxy: the labels of the group are booleans
    have hbools : ∀ v ∈ (labeled.filter
        (fun p => p.1.control_id = m.control_id)).map (fun p => p.2),
        ∃ b, v = Value.vBool b := by
      intro v hv
      rcases List.mem_map.mp hv with ⟨p, hp, hpv⟩
      have hpl : p ∈ labeled := List.mem_of_mem_filter hp
      rcases List.mem_flatMap.mp hpl with ⟨h, hh, hph⟩
      rcases allHits_provenance tx controls hs hhits h hh with
        ⟨c, -, -, -, r, hr, hrail, hid, hhrail⟩
      have hidstr : ∃ s, h.tx_id = Value.vStr s := by
        rcases hids r hr with ⟨s, hhs⟩
        exact ⟨s, by rw [hid, hhs]⟩
      have hbool := joinLabel_label_bool tx h hlabels
        ⟨r, hr, hid.symm, hhrail.symm⟩ hidstr
        ⟨c.rail, by rw [hhrail, hrail]⟩ p hph
      rcases hbool with ⟨b, hb⟩
      exact ⟨b, by rw [← hpv, hb]⟩
  -- hmm: the goal here needs the mean bounds
    have hmapnil : (labeled.filter
        (fun p => p.1.control_id = m.control_id)).map (fun p => p.2) ≠ [] := by
      intro hcontra
      rw [List.map_eq_nil_iff] at hcontra
      exact hgrpnil hcontra
    rcases meanNumeric_bools _ hbools hmapnil with ⟨q, hq, hq0, hq1⟩
    rw [hq] at hmean
    have hmm : mm = some q := (Except.ok.inj hmean).symm
    refine ⟨round4 q, ?_, (round4_unit q hq0 hq1).1, (round4_unit q hq0 hq1).2⟩
    rw [hprec, hmm]
    rfl

/-! ## Lemmas: independence from the set-enumeration order (C9) -/

lemma resolve_perm_eq (l1 l2 : List String)
    (hmem : ∀ a, a ∈ l1 ↔ a ∈ l2) (hnil : l1 = [] ↔ l2 = [])
    (hval : ∀ a ∈ l1, a ∈ validActions) :
    resolve_final_action l1 = resolve_final_action l2 := by
  by_cases h1 : l1 = []
  · rw [h1, hnil.mp h1]
  · have h2 : l2 ≠ [] := fun hc => h1 (hnil.mpr hc)
    have hval2 : ∀ a ∈ l2, a ∈ validActions := fun a ha => hval a ((hmem a).mpr ha)
    rw [resolve_final_action_char l1 hval, resolve_final_action_char l2 hval2]
    by_cases hB : "BLOCK" ∈ l1
    · rw [if_pos hB, if_pos ((hmem _).mp hB)]
    · rw [if_neg hB, if_neg (fun hc => hB ((hmem _).mpr hc))]
      by_cases hR : "REVIEW" ∈ l1
      · rw [if_pos hR, if_pos ((hmem _).mp hR)]
      · rw [if_neg hR, if_neg (fun hc => hR ((hmem _).mpr hc))]

/-- C9: the engine is deterministic.  The only internal nondeterminism of the
source is the enumeration order of Python's `set` of triggered actions; for
any two faithful enumeration orders (and well-formed control actions) the
whole pass — decisions, hits and metrics — is identical. -/
theorem evaluate_controls_deterministic
    (ord1 ord2 : List String → List String)
    (hord1 : ∀ l, (ord1 l).Perm l.dedup) (hord2 : ∀ l, (ord2 l).Perm l.dedup)
    (tx : DF) (controls : List Control)
    (hact : ∀ c ∈ controls, c.action ∈ validActions) :
    evaluate_controls ord1 tx controls = evaluate_controls ord2 tx controls := by
  unfold evaluate_controls
  cases hfind : requiredCols.find? (fun c => !(tx.cols.contains c)) with
  | some c => rfl
  | none =>
    cases hhits : allHits tx controls with
    | error e => rfl
    | ok hs =>
      rw [exceptBind_ok, exceptBind_ok]
      have hdec : tx.rows.map (decisionFor hs ord1) =
          tx.rows.map (decisionFor hs ord2) := by
        apply List.map_congr_left
        intro r hr
        have hfin : (if (hs.filter (fun h =>
              mergeKeyEq h.tx_id (rowGet r "tx_id"))).isEmpty then "ALLOW"
            else resolve_final_action (ord1 ((hs.filter (fun h =>
              mergeKeyEq h.tx_id (rowGet r "tx_id"))).map (fun h => h.action)))) =
            (if (hs.filter (fun h =>
              mergeKeyEq h.tx_id (rowGet r "tx_id"))).isEmpty then "ALLOW"
            else resolve_final_action (ord2 ((hs.filter (fun h =>
              mergeKeyEq h.tx_id (rowGet r "tx_id"))).map (fun h => h.action)))) := by
          by_cases hemp : (hs.filter (fun h =>
              mergeKeyEq h.tx_id (rowGet r "tx_id"))).isEmpty
          · rw [if_pos hemp, if_pos hemp]
          · rw [if_neg hemp, if_neg hemp]
            set acts := (hs.filter (fun h =>
              mergeKeyEq h.tx_id (rowGet r "tx_id"))).map (fun h => h.action)
              with hacts
            apply resolve_perm_eq
            · intro a
              rw [(hord1 acts).mem_iff, (hord2 acts).mem_iff]
            · rw [← List.length_eq_zero, ← List.length_eq_zero,
                (hord1 acts).length_eq, (hord2 acts).length_eq]
            · intro a ha
              have ha2 : a ∈ acts := by
                rw [← List.mem_dedup]
                exact (hord1 acts).mem_iff.mp ha
              rcases List.mem_map.mp ha2 with ⟨h, hh, rfl⟩
              have hhs : h ∈ hs := List.mem_of_mem_filter hh
              rcases allHits_provenance tx controls hs hhits h hhs with
                ⟨c, hc, -, hac, -⟩
              rw [hac]
              exact hact c hc
        show decisionFor hs ord1 r = decisionFor hs ord2 r
        unfold decisionFor
        dsimp only []
        rw [hfin]
      rw [hdec]

/-! ## Lemmas: `str.replace(pat, "")` removes every occurrence (C10) -/

lemma repAll_cons (pat : List Char) (c : Char) (rest : List Char) :
    repAll pat (c :: rest) =
      if pat ≠ [] ∧ pat.isPrefixOf (c :: rest) then
        repAll pat (List.drop pat.length (c :: rest))
      else c :: repAll pat rest := by
  rw [repAll]
  rfl

lemma repAll_length_le (pat : List Char) (s : List Char) :
    (repAll pat s).length ≤ s.length := by
  induction s using repAll.induct pat with
  | case1 => simp [repAll]
  | case2 c rest h ih =>
    rw [repAll_cons, if_pos h]
    calc (repAll pat (List.drop pat.length (c :: rest))).length
        ≤ (List.drop pat.length (c :: rest)).length := ih
      _ ≤ (c :: rest).length := by rw [List.length_drop]; simp
  | case3 c rest h ih =>
    rw [repAll_cons, if_neg h]
    simp only [List.length_cons]
    omega

/-- Every removal takes out exactly one copy of the pattern. -/
lemma repAll_length_mod (pat : List Char) (s : List Char) :
    ∃ k, (repAll pat s).length + k * pat.length = s.length := by
  induction s using repAll.induct pat with
  | case1 => exact ⟨0, by simp [repAll]⟩
  | case2 c rest h ih =>
    rw [repAll_cons, if_pos h]
    obtain ⟨k, hk⟩ := ih
    have hple : pat.length ≤ (c :: rest).length :=
      (List.isPrefixOf_iff_prefix.mp h.2).length_le
    refine ⟨k + 1, ?_⟩
    rw [List.length_drop] at hk
    rw [Nat.succ_mul]
    simp only [List.length_cons] at *
    omega
  | case3 c rest h ih =>
    rw [repAll_cons, if_neg h]
    obtain ⟨k, hk⟩ := ih
    refine ⟨k, ?_⟩
    simp only [List.length_cons]
    omega

lemma infix_in_rest_of_cons {pat rest : List Char} {c : Char}
    (hinf : pat <:+: (c :: rest)) (hnp : ¬ pat <+: (c :: rest)) :
    pat <:+: rest := by
  rcases hinf with ⟨u, v, huv⟩
  cases u with
  | nil =>
    exfalso
    apply hnp
    simp only [List.nil_append] at huv
    exact ⟨v, huv⟩
  | cons a u2 =>
    refine ⟨u2, v, ?_⟩
    simp only [List.cons_append] at huv
    exact (List.cons.inj huv).2

/-- Removing a pattern that occurs in the string shortens it by at least one
pattern length. -/
lemma repAll_length_of_infix (pat : List Char) (hpat : pat ≠ []) :
    ∀ s : List Char, pat <:+: s →
      (repAll pat s).length + pat.length ≤ s.length := by
  intro s
  induction s using repAll.induct pat with
  | case1 =>
    intro hinf
    exfalso
    rcases hinf with ⟨u, v, huv⟩
    have h1 := (List.append_eq_nil.mp huv).1
    exact hpat (List.append_eq_nil.mp h1).2
  | case2 c rest h ih =>
    intro _
    rw [repAll_cons, if_pos h]
    have hple : pat.length ≤ (c :: rest).length :=
      (List.isPrefixOf_iff_prefix.mp h.2).length_le
    have hle := repAll_length_le pat (List.drop pat.length (c :: rest))
    rw [List.length_drop] at hle
    simp only [List.length_cons] at *
    omega
  | case3 c rest h ih =>
    intro hinf
    rw [repAll_cons, if_neg h]
    have hnp : ¬ pat <+: (c :: rest) := by
      intro hc
      exact h ⟨hpat, List.isPrefixOf_iff_prefix.mpr hc⟩
    have := ih (infix_in_rest_of_cons hinf hnp)
    simp only [List.length_cons]
    omega

/-- The key step for a string that still ends in the pattern after a prefix
occurrence was removed. -/
lemma repAll_tail_occurrence (pat : List Char) (hpat : pat ≠ []) (w : List Char)
    (hwp : pat.length ≤ w.length) (hpre : pat <+: (w ++ pat)) :
    (repAll pat (w ++ pat)).length + 2 * pat.length ≤ (w ++ pat).length := by
  have hdrop : List.drop pat.length (w ++ pat) = List.drop pat.length w ++ pat := by
    rw [List.drop_append_eq_append_drop, Nat.sub_eq_zero_of_le hwp, List.drop_zero]
  have hinfix : pat <:+: (List.drop pat.length w ++ pat) :=
    ⟨List.drop pat.length w, [], by simp⟩
  have hL2 := repAll_length_of_infix pat hpat _ hinfix
  cases hw : w ++ pat with
  | nil =>
    exfalso
    exact hpat (List.append_eq_nil.mp hw).2
  | cons c rest =>
    rw [hw] at hpre
    rw [repAll_cons,
      if_pos ⟨hpat, List.isPrefixOf_iff_prefix.mpr hpre⟩, ← hw, hdrop]
    have hlens : (List.drop pat.length w ++ pat).length
        = w.length - pat.length + pat.length := by
      rw [List.length_append, List.length_drop]
    have hwl : (w ++ pat).length = w.length + pat.length := List.length_append w pat
    omega

/-- A string of the shape `u ++ pat ++ v ++ pat` loses at least two pattern
copies under replace-all. -/
lemma repAll_two_occurrences (pat : List Char) (hpat : pat ≠ []) :
    ∀ (u v : List Char),
      (repAll pat (u ++ (pat ++ (v ++ pat)))).length + 2 * pat.length ≤
        (u ++ (pat ++ (v ++ pat))).length := by
  intro u
  induction u with
  | nil =>
    intro v
    have hassoc : ([] : List Char) ++ (pat ++ (v ++ pat)) = (pat ++ v) ++ pat := by
      simp
    rw [hassoc]
    have hpre : pat <+: ((pat ++ v) ++ pat) := by
      rw [List.append_assoc]
      exact ⟨v ++ pat, rfl⟩
    apply repAll_tail_occurrence pat hpat (pat ++ v)
      (by rw [List.length_append]; omega) hpre
  | cons c u2 ih =>
    intro v
    by_cases hpre : pat <+: ((c :: u2) ++ (pat ++ (v ++ pat)))
    · have hassoc : (c :: u2) ++ (pat ++ (v ++ pat)) =
          ((c :: u2) ++ pat ++ v) ++ pat := by
        simp
      rw [hassoc] at hpre ⊢
      apply repAll_tail_occurrence pat hpat _ _ hpre
      simp only [List.length_append, List.length_cons]
      omega
    · have hconsform : (c :: u2) ++ (pat ++ (v ++ pat)) =
          c :: (u2 ++ (pat ++ (v ++ pat))) := by simp
      rw [hconsform] at hpre ⊢
      rw [repAll_cons, if_neg (fun hc => hpre (List.isPrefixOf_iff_prefix.mp hc.2))]
      have := ih v
      simp only [List.length_cons]
      omega

/-! ## Lemmas: the columns the matcher consults (C10) -/

lemma endsWith_suffix_suffix {key a b : String} (ha : pyEndsWith key a = true)
    (hb : pyEndsWith key b = true) (hlen : a.data.length ≤ b.data.length) :
    a.data <:+ b.data := by
  unfold pyEndsWith at ha hb
  exact List.suffix_of_suffix_length_le (List.isSuffixOf_iff_suffix.mp ha)
    (List.isSuffixOf_iff_suffix.mp hb) hlen

lemma endsWith_of_decomp (key : String) (pat : String) (u v : List Char)
    (hdecomp : key.data = u ++ (pat.data ++ (v ++ pat.data))) :
    pyEndsWith key pat = true := by
  unfold pyEndsWith
  apply List.isSuffixOf_iff_suffix.mpr
  exact ⟨u ++ (pat.data ++ v), by rw [hdecomp]; simp⟩

/-- The membership branch bases its column on removing every `"_in"`; with a
second `"_in"` inside the field portion this differs from stripping only the
trailing suffix. -/
lemma inFieldName_ne_strip (key : String) (u v : List Char)
    (hdecomp : key.data = u ++ ("_in".data ++ (v ++ "_in".data))) :
    inFieldName key ≠ pyStripSuffix key 3 := by
  intro heq
  have hdata := congrArg String.data heq
  have hrepdata : (inFieldName key).data = repAll "_in".data key.data := rfl
  have hstripdata : (pyStripSuffix key 3).data =
      key.data.take (key.data.length - 3) := rfl
  rw [hrepdata, hstripdata] at hdata
  have hlen := congrArg List.length hdata
  rw [List.length_take] at hlen
  have h2 := repAll_two_occurrences "_in".data (by decide) u v
  rw [← hdecomp] at h2
  obtain ⟨k, hk⟩ := repAll_length_mod "_in".data key.data
  have h3 : ("_in".data).length = 3 := rfl
  rw [h3] at h2 hk
  rw [Nat.min_eq_left (Nat.sub_le _ _)] at hlen
  omega

/-- Same divergence for the plain comparison branch, the YAML alias
normalization notwithstanding. -/
lemma cmpFieldName_ne_strip (key op : String) (u v : List Char)
    (hdecomp : key.data = u ++ (op.data ++ (v ++ op.data)))
    (hlen34 : op.data.length = 3 ∨ op.data.length = 4) :
    cmpFieldName key op ≠ pyStripSuffix key op.length := by
  intro heq
  have hpatne : op.data ≠ [] := by
    intro hc
    rw [hc] at hlen34
    rcases hlen34 with h | h <;> cases h
  have h2 := repAll_two_occurrences op.data hpatne u v
  rw [← hdecomp] at h2
  obtain ⟨k, hk⟩ := repAll_length_mod op.data key.data
  have hrepdata : (pyReplace key op).data = repAll op.data key.data := rfl
  have hstripdata : (pyStripSuffix key op.length).data =
      key.data.take (key.data.length - op.data.length) := rfl
  have hdata := congrArg String.data heq
  unfold cmpFieldName normalizeField at hdata
  dsimp only [] at hdata
  have hstriplen : (key.data.take (key.data.length - op.data.length)).length =
      key.data.length - op.data.length := by
    rw [List.length_take, Nat.min_eq_left (Nat.sub_le _ _)]
  by_cases hacc : pyReplace key op = "account_age"
  · rw [if_pos hacc, if_neg (by decide)] at hdata
    rw [hstripdata] at hdata
    have hlen := congrArg List.length hdata
    rw [hstriplen] at hlen
    have h16 : ("account_age_days").data.length = 16 := rfl
    rw [h16] at hlen
    have hacclen : (repAll op.data key.data).length = 11 := by
      rw [← hrepdata, hacc]
      rfl
    rw [hacclen] at h2 hk
    rcases hlen34 with h34 | h34 <;> rw [h34] at h2 hk hlen <;> omega
  · rw [if_neg hacc] at hdata
    by_cases hwal : pyReplace key op = "wallet_age"
    · rw [if_pos hwal] at hdata
      rw [hstripdata] at hdata
      have hlen := congrArg List.length hdata
      rw [hstriplen] at hlen
      have h15 : ("wallet_age_days").data.length = 15 := rfl
      rw [h15] at hlen
      have hwallen : (repAll op.data key.data).length = 10 := by
        rw [← hrepdata, hwal]
        rfl
      rw [hwallen] at h2 hk
      rcases hlen34 with h34 | h34 <;> rw [h34] at h2 hk hlen <;> omega
    · rw [if_neg hwal] at hdata
      rw [hstripdata, hrepdata] at hdata
      have hlen := congrArg List.length hdata
      rw [hstriplen] at hlen
      rcases hlen34 with h34 | h34 <;> rw [h34] at h2 hk hlen <;> omega

/-- `evalCondition` touches the row only through the single column named by
`condField`. -/
lemma evalCondition_reads_condField (df df2 : DF) (key : String) (vv : CondVal)
    (r r2 : Row)
    (h : safeGet df r (condField key) = safeGet df2 r2 (condField key)) :
    evalCondition df key vv r = evalCondition df2 key vv r2 := by
  unfold evalCondition
  unfold condField at h
  by_cases hin : pyEndsWith key "_in" = true
  · rw [if_pos hin] at h
    rw [if_pos hin, if_pos hin]
    cases vv <;> first | rfl | rw [h]
  · rw [if_neg hin] at h
    rw [if_neg hin, if_neg hin]
    cases hday : matchDaySuffix key with
    | some p =>
      rw [hday] at h
      obtain ⟨suf, op⟩ := p
      dsimp only [] at h ⊢
      cases hf : floatOfCondVal vv with
      | some bound =>
        dsimp only []
        rw [h]
      | none => rfl
    | none =>
      rw [hday] at h
      dsimp only [] at h ⊢
      cases hop : matchPlainOp key with
      | some op =>
        rw [hop] at h
        dsimp only [] at h ⊢
        cases hf : floatOfCondVal vv with
        | some bound =>
          dsimp only []
          rw [h]
        | none => rfl
      | none =>
        rw [hop] at h
        dsimp only [] at h ⊢
        cases vv <;> first | rfl | rw [h]

lemma mem_plainOps_cases {op : String} (hop : op ∈ plainOps) :
    op = "_gt" ∨ op = "_gte" ∨ op = "_lt" ∨ op = "_lte" := by
  simpa [plainOps] using hop

lemma not_endsWith_in_of_op (key op : String) (hop : op ∈ plainOps)
    (hends : pyEndsWith key op = true) : pyEndsWith key "_in" = false := by
  cases hval : pyEndsWith key "_in" with
  | false => rfl
  | true =>
    exfalso
    rcases mem_plainOps_cases hop with rfl | rfl | rfl | rfl <;>
      exact absurd (endsWith_suffix_suffix hval hends (by decide)) (by decide)

lemma matchDaySuffix_none_of_op (key op : String) (hop : op ∈ plainOps)
    (hends : pyEndsWith key op = true) : matchDaySuffix key = none := by
  unfold matchDaySuffix
  rw [List.find?_eq_none]
  intro p hp
  have hp4 : p = ("_gt_days", "_gt") ∨ p = ("_gte_days", "_gte") ∨
      p = ("_lt_days", "_lt") ∨ p = ("_lte_days", "_lte") := by
    simpa [daySuffixes] using hp
  rcases mem_plainOps_cases hop with rfl | rfl | rfl | rfl <;>
    rcases hp4 with rfl | rfl | rfl | rfl <;>
      exact fun hcontra =>
        absurd (endsWith_suffix_suffix hends hcontra (by decide)) (by decide)

lemma matchPlainOp_eq (key op : String) (hop : op ∈ plainOps)
    (hends : pyEndsWith key op = true) : matchPlainOp key = some op := by
  rcases mem_plainOps_cases hop with rfl | rfl | rfl | rfl
  · unfold matchPlainOp plainOps
    rw [List.find?_cons_of_pos _ hends]
  · have h1 : pyEndsWith key "_gt" = false := by
      cases hval : pyEndsWith key "_gt" with
      | false => rfl
      | true =>
        exact absurd (endsWith_suffix_suffix hval hends (by decide)) (by decide)
    unfold matchPlainOp plainOps
    rw [List.find?_cons_of_neg _ (by rw [h1]; simp),
      List.find?_cons_of_pos _ hends]
  · have h1 : pyEndsWith key "_gt" = false := by
      cases hval : pyEndsWith key "_gt" with
      | false => rfl
      | true =>
        exact absurd (endsWith_suffix_suffix hval hends (by decide)) (by decide)
    have h2 : pyEndsWith key "_gte" = false := by
      cases hval : pyEndsWith key "_gte" with
      | false => rfl
      | true =>
        exact absurd (endsWith_suffix_suffix hends hval (by decide)) (by decide)
    unfold matchPlainOp plainOps
    rw [List.find?_cons_of_neg _ (by rw [h1]; simp),
      List.find?_cons_of_neg _ (by rw [h2]; simp),
      List.find?_cons_of_pos _ hends]
  · have h1 : pyEndsWith key "_gt" = false := by
      cases hval : pyEndsWith key "_gt" with
      | false => rfl
      | true =>
        exact absurd (endsWith_suffix_suffix hval hends (by decide)) (by decide)
    have h2 : pyEndsWith key "_gte" = false := by
      cases hval : pyEndsWith key "_gte" with
      | false => rfl
      | true =>
        exact absurd (endsWith_suffix_suffix hval hends (by decide)) (by decide)
    have h3 : pyEndsWith key "_lt" = false := by
      cases hval : pyEndsWith key "_lt" with
      | false => rfl
      | true =>
        exact absurd (endsWith_suffix_suffix hval hends (by decide)) (by decide)
    unfold matchPlainOp plainOps
    rw [List.find?_cons_of_neg _ (by rw [h1]; simp),
      List.find?_cons_of_neg _ (by rw [h2]; simp),
      List.find?_cons_of_neg _ (by rw [h3]; simp),
      List.find?_cons_of_pos _ hends]

/-- C10: in the membership and plain-comparison branches the consulted column
is derived with `replace`, which removes every occurrence of the suffix
substring; whenever the field portion of the key itself contains that
substring, the column the matcher reads (it reads exactly one column, the one
`condField` names) differs from the key with only its trailing suffix
stripped. -/
theorem condition_field_removes_every_suffix_occurrence (key : String) :
    (∀ u v : List Char,
      key.data = u ++ ("_in".data ++ (v ++ "_in".data)) →
      condField key = inFieldName key ∧
      inFieldName key ≠ pyStripSuffix key 3) ∧
    (∀ op ∈ plainOps, ∀ u v : List Char,
      key.data = u ++ (op.data ++ (v ++ op.data)) →
      condField key = cmpFieldName key op ∧
      cmpFieldName key op ≠ pyStripSuffix key op.length) ∧
    (∀ (df df2 : DF) (r r2 : Row) (vv : CondVal),
      safeGet df r (condField key) = safeGet df2 r2 (condField key) →
      evalCondition df key vv r = evalCondition df2 key vv r2) := by
  refine ⟨?_, ?_, ?_⟩
  · intro u v hdecomp
    have hends := endsWith_of_decomp key "_in" u v hdecomp
    refine ⟨?_, inFieldName_ne_strip key u v hdecomp⟩
    unfold condField
    rw [if_pos hends]
  · intro op hop u v hdecomp
    have hends := endsWith_of_decomp key op u v hdecomp
    have hnotin := not_endsWith_in_of_op key op hop hends
    have hday := matchDaySuffix_none_of_op key op hop hends
    have hplain := matchPlainOp_eq key op hop hends
    refine ⟨?_, ?_⟩
    · unfold condField
      rw [if_neg (by rw [hnotin]; simp), hday, hplain]
    · have hlen34 : op.data.length = 3 ∨ op.data.length = 4 := by
        rcases mem_plainOps_cases hop with rfl | rfl | rfl | rfl
        · exact Or.inl rfl
        · exact Or.inr rfl
        · exact Or.inl rfl
        · exact Or.inr rfl
      exact cmpFieldName_ne_strip key op u v hdecomp hlen34
  · intro df df2 r r2 vv h
    exact evalCondition_reads_condField df df2 key vv r r2 h

/-! ## C4: absent fields -/

/-- C4 counterexample: the claim "a condition whose referenced field is absent
never matches, for every suffix kind" is false.  The absent column becomes a
`pd.NA` series; the string-equality branch stringifies it to `"<NA>"`, so a
condition expecting the string `"<NA>"` matches every record, and a control
carrying it produces a hit. -/
theorem absent_field_na_string_matches :
    ("ghost" ∉ ghostDf.cols) ∧
    rowMatches ghostDf [("ghost", CondVal.cStr "<NA>")] ghostRow = .ok true ∧
    controlHits ghostDf ghostControl =
      .ok [{ tx_id := Value.vStr "T1", rail := Value.vStr "ACH",
             control_id := "GHOST", severity := "LOW", action := "REVIEW",
             description := "" }] := by
  refine ⟨by decide, by with_unfolding_all rfl, by with_unfolding_all rfl⟩

/-- C4 amended: a condition on a field absent from the schema never raises and
never matches, provided the condition is well-typed for its suffix kind and —
in the string-equality case — its expected value does not lower-case to
`"<na>"`; a control whose sole condition is such never produces a hit. -/
theorem absent_field_nonmatch_amended (key : String) (v : CondVal)
    (hsafe : condSafe key v = true) :
    (∀ (df : DF) (r : Row), condField key ∉ df.cols →
      evalCondition df key v r = .ok false) ∧
    (∀ (tx : DF) (c : Control), c.conditions = [(key, v)] →
      condField key ∉ tx.cols → controlHits tx c = .ok []) := by
  have hmain : ∀ (df : DF) (r : Row), condField key ∉ df.cols →
      evalCondition df key v r = .ok false := by
    intro df r habsent
    have hsafeget : safeGet df r (condField key) = Value.vNA := by
      unfold safeGet
      rw [if_neg habsent]
    unfold evalCondition
    unfold condField at hsafeget
    unfold condSafe at hsafe
    by_cases hin : pyEndsWith key "_in" = true
    · rw [if_pos hin] at hsafe hsafeget
      rw [if_pos hin]
      cases v with
      | cList l =>
        rw [hsafeget]
        rfl
      | cStr s => simp at hsafe
      | cNum q => simp at hsafe
      | cBool b => simp at hsafe
    · rw [if_neg hin] at hsafe hsafeget
      rw [if_neg hin]
      cases hday : matchDaySuffix key with
      | some p =>
        rw [hday] at hsafe hsafeget
        obtain ⟨suf, op⟩ := p
        dsimp only [] at hsafe hsafeget ⊢
        cases hf : floatOfCondVal v with
        | some bound =>
          dsimp only []
          rw [hsafeget]
          rfl
        | none =>
          rw [hf] at hsafe
          simp at hsafe
      | none =>
        rw [hday] at hsafe hsafeget
        dsimp only [] at hsafe hsafeget ⊢
        cases hop : matchPlainOp key with
        | some op =>
          rw [hop] at hsafe hsafeget
          dsimp only [] at hsafe hsafeget ⊢
          cases hf : floatOfCondVal v with
          | some bound =>
            dsimp only []
            rw [hsafeget]
            rfl
          | none =>
            rw [hf] at hsafe
            simp at hsafe
        | none =>
          rw [hop] at hsafe hsafeget
          dsimp only [] at hsafe hsafeget ⊢
          cases v with
          | cBool b =>
            rw [hsafeget]
            with_unfolding_all rfl
          | cStr s =>
            dsimp only [] at hsafe ⊢
            rw [hsafeget]
            have hne : pyLower s ≠ "<na>" := of_decide_eq_true hsafe
            unfold pyEqStrLower
            have hna : pyLower (pyStrCell Value.vNA) = "<na>" := rfl
            rw [hna, decide_eq_false (fun hc => hne hc.symm)]
          | cNum q =>
            rw [hsafeget]
            rfl
          | cList l => simp at hsafe
  refine ⟨hmain, ?_⟩
  intro tx c hconds habs2
  unfold controlHits
  dsimp only []
  by_cases hemp : (railFilter tx c.rail).rows.isEmpty
  · rw [if_pos hemp]
    rfl
  · rw [if_neg hemp]
    have hfalse : ∀ r2 ∈ (railFilter tx c.rail).rows,
        rowMatches (railFilter tx c.rail) c.conditions r2 = .ok false := by
      intro r2 hr2
      rw [hconds]
      simp only [rowMatches]
      have hev : evalCondition (railFilter tx c.rail) key v r2 = .ok false :=
        hmain (railFilter tx c.rail) r2 habs2
      rw [hev]
      rfl
    rw [maskRows_all_false _ _ _ hfalse]
    rfl

/-! ## C8: the §8 scenario -/

/-- C8: the single ACH control of §8 against the §8 transaction produces
exactly one hit and one decision with final action REVIEW (the whole pass is
computed). -/
theorem scenario_single_hit_review :
    evaluate_controls dedupOrd scenarioDf [scenarioControl] =
      .ok
        ([{ tx_id := Value.vStr "T1", rail := Value.vStr "ACH",
            timestamp := Value.vStr "2024-01-01T00:00:00",
            user_id := Value.vStr "U1", amount := Value.vNum 6000,
            is_fraud_pattern := Value.vBool false, final_action := "REVIEW",
            triggered_controls := "ACH_FAST_FUNDING",
            triggered_actions := "REVIEW" }],
         [{ tx_id := Value.vStr "T1", rail := Value.vStr "ACH",
            control_id := "ACH_FAST_FUNDING", severity := "HIGH",
            action := "REVIEW",
            description := "fast funding on a young account" }],
         [{ control_id := "ACH_FAST_FUNDING", hits := 1, hit_rate := 1,
            precision_proxy := some 0 }]) := by
  with_unfolding_all rfl

/-! ## Witnesses -/

theorem final_action_resolution_witness :
    wDecision1.final_action ∈ validActions ∧
    (wDecision1.final_action = "BLOCK" ↔
      ∃ h ∈ wHits, h.tx_id = wDecision1.tx_id ∧ h.action = "BLOCK") ∧
    (wDecision1.final_action = "REVIEW" ↔
      ((¬ ∃ h ∈ wHits, h.tx_id = wDecision1.tx_id ∧ h.action = "BLOCK") ∧
       ∃ h ∈ wHits, h.tx_id = wDecision1.tx_id ∧ h.action = "REVIEW")) ∧
    (wDecision1.final_action = "ALLOW" ↔
      ((¬ ∃ h ∈ wHits, h.tx_id = wDecision1.tx_id ∧ h.action = "BLOCK") ∧
       ¬ ∃ h ∈ wHits, h.tx_id = wDecision1.tx_id ∧ h.action = "REVIEW")) :=
  final_action_resolution dedupOrd (fun _ => List.Perm.refl _) wDf wControls
    (by decide)
    (by
      intro r hr
      rcases List.mem_cons.mp hr with rfl | hr2
      · exact ⟨"T1", rfl⟩
      · rcases List.mem_cons.mp hr2 with rfl | hr3
        · exact ⟨"T2", rfl⟩
        · cases hr3)
    wDecisions wHits wMetrics (by with_unfolding_all rfl)
    wDecision1 (List.mem_cons_self _ _)

theorem decisions_one_row_per_tx_witness :
    (wDecisions.map (fun d => d.tx_id) =
      wDf.rows.map (fun r => rowGet r "tx_id")) ∧
    (wDecisions.map (fun d => d.tx_id)).Nodup ∧
    (∀ d ∈ wDecisions, (∀ h ∈ wHits, h.tx_id ≠ d.tx_id) →
      d.final_action = "ALLOW" ∧ d.triggered_controls = "" ∧
      d.triggered_actions = "") :=
  decisions_one_row_per_tx dedupOrd wDf wControls (by decide)
    wDecisions wHits wMetrics (by with_unfolding_all rfl)

theorem hits_rail_scoped_witness :
    (∀ x ∈ [wHit1], x.rail = Value.vStr wControlA.rail ∧
       (∀ s, s ≠ wControlA.rail → x.rail ≠ Value.vStr s) ∧
       ∃ r ∈ wDf.rows, rowGet r "rail" = Value.vStr wControlA.rail ∧
         x.tx_id = rowGet r "tx_id") ∧
    ((railFilter wDf wControlA.rail).rows = [] → [wHit1] = ([] : List Hit)) :=
  hits_rail_scoped wDf wControlA [wHit1] (by with_unfolding_all rfl)

theorem absent_field_nonmatch_amended_witness :
    (∀ (df : DF) (r : Row), condField "ghost" ∉ df.cols →
      evalCondition df "ghost" (CondVal.cStr "missing") r = .ok false) ∧
    (∀ (tx : DF) (c : Control),
      c.conditions = [("ghost", CondVal.cStr "missing")] →
      condField "ghost" ∉ tx.cols → controlHits tx c = .ok []) :=
  absent_field_nonmatch_amended "ghost" (CondVal.cStr "missing") (by decide)

theorem required_column_fail_fast_witness :
    ((∃ c ∈ requiredCols, c ∉ c5Df.cols) ↔
      ∃ c ∈ requiredCols,
        evaluate_controls dedupOrd c5Df [] = .error (missingColMsg c)) ∧
    ((∃ c ∈ requiredCols, c ∉ c5Df.cols) →
      ∀ out, evaluate_controls dedupOrd c5Df [] ≠ .ok out) :=
  required_column_fail_fast dedupOrd c5Df []

theorem metrics_table_shape_witness :
    (∀ cid : String, (wMetrics.filter (fun m => m.control_id = cid)).length =
        if ∃ h ∈ wHits, h.control_id = cid then 1 else 0) ∧
    (∀ m ∈ wMetrics, 0 < m.hits ∧
        m.hits = (wHits.filter (fun h => h.control_id = m.control_id)).length ∧
        m.hit_rate = round4 ((m.hits : ℚ) / (wDf.rows.length : ℚ)) ∧
        (∀ p, m.precision_proxy = some p → round4 p = p)) ∧
    List.Pairwise (fun a b => b.hits ≤ a.hits) wMetrics :=
  metrics_table_shape dedupOrd wDf wControls (by decide)
    wDecisions wHits wMetrics (by with_unfolding_all rfl)

theorem metrics_values_in_unit_interval_witness :
    (0 ≤ wMetric1.hit_rate ∧ wMetric1.hit_rate ≤ 1) ∧
    (∃ p, wMetric1.precision_proxy = some p ∧ 0 ≤ p ∧ p ≤ 1) ∧
    0 < wMetric1.hits :=
  metrics_values_in_unit_interval dedupOrd wDf wControls (by decide)
    (by
      intro r hr
      rcases List.mem_cons.mp hr with rfl | hr2
      · exact ⟨"T1", rfl⟩
      · rcases List.mem_cons.mp hr2 with rfl | hr3
        · exact ⟨"T2", rfl⟩
        · cases hr3)
    (by
      intro r hr
      rcases List.mem_cons.mp hr with rfl | hr2
      · exact ⟨true, rfl⟩
      · rcases List.mem_cons.mp hr2 with rfl | hr3
        · exact ⟨false, rfl⟩
        · cases hr3)
    (by decide)
    wDecisions wHits wMetrics (by with_unfolding_all rfl)
    wMetric1 (List.mem_cons_self _ _)

theorem evaluate_controls_deterministic_witness :
    evaluate_controls dedupOrd wDf wControls =
      evaluate_controls revOrd wDf wControls :=
  evaluate_controls_deterministic dedupOrd revOrd (fun _ => List.Perm.refl _)
    (fun l => List.reverse_perm l.dedup) wDf wControls (by decide)

theorem condition_field_removes_every_suffix_occurrence_witness :
    (condField "signal_int_in" = inFieldName "signal_int_in" ∧
     inFieldName "signal_int_in" ≠ pyStripSuffix "signal_int_in" 3) ∧
    (condField "a_gt_b_gt" = cmpFieldName "a_gt_b_gt" "_gt" ∧
     cmpFieldName "a_gt_b_gt" "_gt" ≠
       pyStripSuffix "a_gt_b_gt" (String.length "_gt")) :=
  ⟨(condition_field_removes_every_suffix_occurrence "signal_int_in").1
      "signal".data "t".data rfl,
   (condition_field_removes_every_suffix_occurrence "a_gt_b_gt").2.1
      "_gt" (by decide) "a".data "_b".data rfl⟩

end RiskControls
